import Mathlib

/-!
# Process Tree Explorer (`src/script.js`) — a shallow embedding

The process-lifecycle part of `CSO2Simulator` (`initProcessTreeExplorer`,
`setupInitialProcesses`, `forkProcess`, `execProcess`, `terminateProcess`,
`terminateSpecificProcess`, `killParentProcess`, `reapZombie`) is embedded as
pure functions on an explicit state.

JavaScript objects have identity: `this.selectedProcess` is a *reference* to an
object that is (normally) also an element of `this.processes`, and a write
through one is seen through the other.  The embedding keeps this: process
objects live in a heap addressed by references, `this.processes` is a list of
references and `this.selectedProcess` an optional reference.

Conventions
* pids are JavaScript numbers that only ever hold small non-negative integers
  (`nextPid++` from 2); they are modelled as `Nat`.
* `status` is one of the two strings `'running'` and `'zombie'`.
* `alert`, DOM rendering and the transient message banners do not touch the
  fields modelled here and are left out.
* `setTimeout(() => this.reapZombie(process.pid), 2000)` is modelled by an
  explicit list of pending `(pid, delay)` entries; `pid` is never written
  after an object is created, so reading it when the timer is set or when it
  fires gives the same number. Any pending entry may fire next, which covers
  the order in which equal-delay timers really fire (oldest first).
* `Math.floor(Math.random() * programs.length)` is an explicit `Fin 4`.
* Arrays and environment objects are never mutated in place (only replaced by
  assignment), so they are modelled by their values.
* The click handlers are re-installed by `renderProcessTree` at the end of
  every operation that changes the registry, so the object a handler holds is
  the one `this.processes.find(p => p.pid === pid)` gives when the click
  happens. Nodes exist for the processes reachable from `ppid = 0`; the model
  lets any registry entry be clicked.
* `runAutoDemo` calls `this.wait(...)`, a method the class does not define:
  the call throws a `TypeError`, which is modelled by `Except.error`. An
  `async` method that throws before its first suspension runs in one turn, so
  no click and no timer comes in between.

The permission checks `checkSpecificPermission` and `checkPermission` of the
same file are embedded as pure functions on a file record; `NaN` and
`undefined` are `none`.

The Virtual Memory Mapper (`translateAddress`, `allocateFrame`) is embedded on
a state made of the page table and the 16-element frame array; the address is
the number `parseInt(virtualAddr, 16)` and the random victim index is an
explicit `Fin 16`.
-/

namespace CSO2

/-- A reference to a process object (its address in the heap). -/
abbrev Ref := Nat

/-- The `status` field: `'running'` or `'zombie'`. -/
inductive Status where
  | running
  | zombie
  deriving DecidableEq, Repr

/-- A process object, field for field as built in `initProcessTreeExplorer`,
`setupInitialProcesses` and `forkProcess`. -/
structure Process where
  pid : Nat
  ppid : Nat
  name : String
  status : Status
  fds : List Nat
  environment : List (String × String)
  cwd : String
  children : List Nat
  deriving DecidableEq, Repr

/-- One entry of the `programs` table of `execProcess`. -/
structure Program where
  name : String
  fds : List Nat
  deriving DecidableEq, Repr

/-- The fields of `CSO2Simulator` used by the Process Tree Explorer, with the
object heap and the pending `setTimeout` reclamations made explicit. -/
structure State where
  heap : Ref → Process
  processes : List Ref
  selectedProcess : Option Ref
  nextPid : Nat
  viewMode : String
  orphanedProcesses : List Nat
  zombieProcesses : List Nat
  pendingReaps : List (Nat × Nat)

/-- Write object `p` at address `r`. -/
def heapSet (h : Ref → Process) (r : Ref) (p : Process) : Ref → Process :=
  fun x => if x = r then p else h x

/-- An address not held by `this.processes` nor by `this.selectedProcess`:
where a newly created object is placed. -/
def State.freshRef (s : State) : Ref :=
  (s.processes ++ s.selectedProcess.toList).foldr max 0 + 1

/-- The registry as a list of process values (`this.processes` dereferenced). -/
def State.procs (s : State) : List Process :=
  s.processes.map s.heap

/-- The expression `this.processes.push(obj)` for a newly created object. -/
def State.pushNew (s : State) (obj : Process) : State :=
  { s with heap := heapSet s.heap s.freshRef obj,
           processes := s.processes ++ [s.freshRef] }

/-- Object spread with one added key, as in `{ ...env, EDITOR: 'vim' }`:
an existing key keeps its position and takes the new value, a new key is
appended. -/
def envSet : List (String × String) → String → String → List (String × String)
  | [], k, v => [(k, v)]
  | (k', v') :: rest, k, v =>
    if k' = k then (k', v) :: rest else (k', v') :: envSet rest k v

/-- The root object of `initProcessTreeExplorer`. -/
def initProcess : Process :=
  { pid := 1, ppid := 0, name := "init", status := Status.running,
    fds := [0, 1, 2],
    environment := [("PATH", "/bin:/usr/bin"), ("USER", "root")],
    cwd := "/", children := [] }

/-- Body of `setupInitialProcesses`: bash, vim and gcc. -/
def setupInitialProcesses (s : State) : State :=
  let shell : Process :=
    { pid := s.nextPid, ppid := 1, name := "bash", status := Status.running,
      fds := [0, 1, 2, 3],
      environment := [("PATH", "/bin:/usr/bin"), ("USER", "student"),
                      ("HOME", "/home/student")],
      cwd := "/home/student", children := [] }
  let s1 := { s with nextPid := s.nextPid + 1 }.pushNew shell
  let editor : Process :=
    { pid := s1.nextPid, ppid := shell.pid, name := "vim", status := Status.running,
      fds := [0, 1, 2, 4],
      environment := envSet shell.environment "EDITOR" "vim",
      cwd := shell.cwd, children := [] }
  let s2 := { s1 with nextPid := s1.nextPid + 1 }.pushNew editor
  let compiler : Process :=
    { pid := s2.nextPid, ppid := shell.pid, name := "gcc", status := Status.running,
      fds := [0, 1, 2, 5, 6],
      environment := shell.environment,
      cwd := shell.cwd, children := [] }
  { s2 with nextPid := s2.nextPid + 1 }.pushNew compiler

/-- The state set up by `initProcessTreeExplorer`: the root object (at
address 0; addresses not yet handed out are never read), then
`setupInitialProcesses`. -/
def initProcessTreeExplorer : State :=
  setupInitialProcesses
    { heap := fun _ => initProcess,
      processes := [0],
      selectedProcess := none,
      nextPid := 2,
      viewMode := "basic",
      orphanedProcesses := [],
      zombieProcesses := [],
      pendingReaps := [] }

/-- The expression `this.processes.find(p => p.pid === pid)`. -/
def State.findByPid (s : State) (pid : Nat) : Option Ref :=
  s.processes.find? (fun r => (s.heap r).pid == pid)

/-- Body of `forkProcess`. -/
def forkProcess (s : State) : State :=
  match s.selectedProcess with
  | none => s
  | some parent =>
    let childProcess : Process :=
      { pid := s.nextPid,
        ppid := (s.heap parent).pid,
        name := "child_" ++ (s.heap parent).name,
        status := Status.running,
        fds := (s.heap parent).fds,
        environment := (s.heap parent).environment,
        cwd := (s.heap parent).cwd,
        children := [] }
    { s with nextPid := s.nextPid + 1 }.pushNew childProcess

/-- The `programs` table of `execProcess`. -/
def programs : List Program :=
  [ { name := "python", fds := [0, 1, 2, 7] },
    { name := "node", fds := [0, 1, 2, 8, 9] },
    { name := "java", fds := [0, 1, 2, 10, 11, 12] },
    { name := "firefox", fds := [0, 1, 2, 13, 14, 15, 16] } ]

/-- Body of `execProcess`; `choice` is the index drawn by
`Math.floor(Math.random() * programs.length)`. -/
def execProcess (s : State) (choice : Fin 4) : State :=
  match s.selectedProcess with
  | none => s
  | some sel =>
    if (s.heap sel).pid = 1 then s
    else
      let newProgram := programs.get ⟨choice.val, choice.isLt⟩
      let h1 := heapSet s.heap sel { s.heap sel with name := newProgram.name }
      let h2 := heapSet h1 sel { h1 sel with fds := newProgram.fds }
      { s with heap := h2 }

/-- One round of the `children.forEach` loop of `terminateSpecificProcess`:
`child.ppid = 1; this.orphanedProcesses.push(child.pid)`. -/
def adoptChild (acc : (Ref → Process) × List Nat) (child : Ref) :
    (Ref → Process) × List Nat :=
  let h := heapSet acc.1 child { acc.1 child with ppid := 1 }
  (h, acc.2 ++ [(h child).pid])

/-- Body of `terminateSpecificProcess(process)`. -/
def terminateSpecificProcess (s : State) (process : Ref) : State :=
  if (s.heap process).pid = 1 then s
  else
    let children := s.processes.filter
      (fun p => (s.heap p).ppid == (s.heap process).pid)
    let h1 := heapSet s.heap process { s.heap process with status := Status.zombie }
    let zombies := s.zombieProcesses ++ [(h1 process).pid]
    let adopted := children.foldl adoptChild (h1, s.orphanedProcesses)
    { s with heap := adopted.1,
             zombieProcesses := zombies,
             orphanedProcesses := adopted.2,
             pendingReaps := s.pendingReaps ++ [((adopted.1 process).pid, 2000)] }

/-- Body of `terminateProcess`. -/
def terminateProcess (s : State) : State :=
  match s.selectedProcess with
  | none => s
  | some sel =>
    if (s.heap sel).pid = 1 then s
    else terminateSpecificProcess s sel

/-- Body of `killParentProcess`. -/
def killParentProcess (s : State) : State :=
  match s.selectedProcess with
  | none => s
  | some sel =>
    if (s.heap sel).pid = 1 then s
    else
      match s.findByPid (s.heap sel).ppid with
      | some parent =>
        if (s.heap parent).pid ≠ 1 then terminateSpecificProcess s parent else s
      | none => s

/-- Body of `reapZombie(pid)`. -/
def reapZombie (s : State) (pid : Nat) : State :=
  let processes := s.processes.filter (fun p => (s.heap p).pid != pid)
  let zombies := s.zombieProcesses.filter (fun z => z != pid)
  let selected :=
    match s.selectedProcess with
    | some sel => if (s.heap sel).pid = pid then none else some sel
    | none => none
  { s with processes := processes, zombieProcesses := zombies,
           selectedProcess := selected }

/-- Click on the node of the process with the given pid (the handler installed
by `renderProcessTree`): `this.selectedProcess = process`. No node, no
effect. -/
def selectProcess (s : State) (pid : Nat) : State :=
  match s.findByPid pid with
  | some process => { s with selectedProcess := some process }
  | none => s

/-- Click on the terminate button of the node with the given pid (the handler
installed by `renderProcessTree`). The button exists only when
`process.pid !== 1`. -/
def terminateButton (s : State) (pid : Nat) : State :=
  if pid = 1 then s
  else
    match s.findByPid pid with
    | some process => terminateSpecificProcess s process
    | none => s

/-- The `i`-th pending reclamation timer fires: it leaves the pending list
and runs `reapZombie` with its pid. -/
def fireReap (s : State) (i : Nat) : State :=
  match s.pendingReaps[i]? with
  | some entry => reapZombie { s with pendingReaps := s.pendingReaps.eraseIdx i } entry.1
  | none => s

/-- The operations a user (or a timer) can trigger on the explorer. -/
inductive Op where
  | select (pid : Nat)
  | fork
  | exec (choice : Fin 4)
  | terminate
  | terminateBtn (pid : Nat)
  | killParent
  | reapTimer (i : Nat)
  deriving DecidableEq, Repr

/-- Effect of one operation. -/
def step (s : State) : Op → State
  | Op.select pid => selectProcess s pid
  | Op.fork => forkProcess s
  | Op.exec choice => execProcess s choice
  | Op.terminate => terminateProcess s
  | Op.terminateBtn pid => terminateButton s pid
  | Op.killParent => killParentProcess s
  | Op.reapTimer i => fireReap s i

/-- Effect of a sequence of operations, first to last. -/
def run (s : State) (ops : List Op) : State :=
  ops.foldl step s

/-- The registry invariant kept by every operation: pids are positive and
below `nextPid`, pids are pairwise distinct, a running process with pid 1 is
present, and no pending reclamation targets pid 1. -/
def Inv (s : State) : Prop :=
  (∀ r ∈ s.processes, 1 ≤ (s.heap r).pid ∧ (s.heap r).pid < s.nextPid) ∧
  (s.processes.map (fun r => (s.heap r).pid)).Nodup ∧
  (∃ r ∈ s.processes, (s.heap r).pid = 1 ∧ (s.heap r).status = Status.running) ∧
  (∀ e ∈ s.pendingReaps, e.1 ≠ 1)

/-- What the operations that neither create nor remove an entry have in
common: same registry membership and `nextPid`, no pid rewritten, the status of
a pid-1 object untouched, and no new pending reclamation for pid 1. -/
def Frame (s t : State) : Prop :=
  t.processes = s.processes ∧ t.nextPid = s.nextPid ∧
  (∀ r, (t.heap r).pid = (s.heap r).pid) ∧
  (∀ r, (s.heap r).pid = 1 → (t.heap r).status = (s.heap r).status) ∧
  (∀ e ∈ t.pendingReaps, e ∈ s.pendingReaps ∨ e.1 ≠ 1)

/-- Every process with a non-zero `ppid` has its parent in the registry. -/
def NoDanglingParent (s : State) : Prop :=
  ∀ p ∈ s.procs, p.ppid ≠ 0 → ∃ q ∈ s.procs, q.pid = p.ppid

/-- The three-process chain root(1) → A(2) → B(3) of the orphan-reparenting
example, nothing selected, no timer pending. -/
def chainExample : State :=
  { heap := fun r =>
      match r with
      | 0 => initProcess
      | 1 => { initProcess with pid := 2, ppid := 1, name := "A" }
      | _ => { initProcess with pid := 3, ppid := 2, name := "B" },
    processes := [0, 1, 2],
    selectedProcess := none,
    nextPid := 4,
    viewMode := "basic",
    orphanedProcesses := [],
    zombieProcesses := [],
    pendingReaps := [] }

/-- The selection, when there is one, is an entry of the registry. -/
def SelInv (s : State) : Prop :=
  ∀ r, s.selectedProcess = some r → r ∈ s.processes

/-- Every pending reclamation carries a pid that was already issued, and a
registry entry with that pid is a zombie. -/
def PendingInv (s : State) : Prop :=
  ∀ e ∈ s.pendingReaps, e.1 < s.nextPid ∧
    ∀ r ∈ s.processes, (s.heap r).pid = e.1 → (s.heap r).status = Status.zombie

/-- The registry invariant together with the two facts about the selection
and the pending reclamations. -/
def Inv2 (s : State) : Prop :=
  Inv s ∧ SelInv s ∧ PendingInv s

/-- The expression `this.processes.find(p => p.name === name)`. -/
def State.findByName (s : State) (name : String) : Option Ref :=
  s.processes.find? (fun r => (s.heap r).name == name)

/-- First step of `runAutoDemo`:
`this.selectedProcess = this.processes.find(p => p.name === 'bash')`
(`undefined`, like `null`, is no selection). -/
def autoDemoSelect (s : State) : State :=
  { s with selectedProcess := s.findByName "bash" }

/-- The call `this.wait(ms)` of `runAutoDemo`. No method `wait` is defined by
the class `CSO2Simulations` (it is called at four places and declared
nowhere), so `this.wait` is `undefined` and calling it throws. -/
def thisWait (_ms : Nat) : Except String Unit :=
  Except.error "TypeError: this.wait is not a function"

/-- What a call of the `async` method `runAutoDemo` leaves behind: the state
at the point where it ended, and the error its promise is rejected with, if
any. -/
structure DemoOutcome where
  state : State
  rejected : Option String

/-- Body of `runAutoDemo`, statement by statement. The select step runs; the
operand `this.wait(1000)` of the first `await` then throws, the `finally`
block (which only re-enables the button) runs and the promise is rejected.
The statements after a throwing `this.wait` are not executed. -/
def runAutoDemo (s : State) : DemoOutcome :=
  let s1 := autoDemoSelect s
  match thisWait 1000 with
  | Except.error e => { state := s1, rejected := some e }
  | Except.ok _ =>
    let s2 := forkProcess s1
    match thisWait 2000 with
    | Except.error e => { state := s2, rejected := some e }
    | Except.ok _ =>
      let s3 := killParentProcess s2
      match thisWait 3000 with
      | Except.error e => { state := s3, rejected := some e }
      | Except.ok _ =>
        let s4 := { s3 with viewMode := "fds" }
        match thisWait 2000 with
        | Except.error e => { state := s4, rejected := some e }
        | Except.ok _ =>
          { state := { s4 with viewMode := "inheritance" }, rejected := none }

/-- The initial topology after bash has been selected and `execProcess` has
drawn index 0: bash is now named python, and no process is named bash. -/
def noBashExample : State :=
  execProcess (selectProcess initProcessTreeExplorer 2) 0

/-- A file object of the permission simulator, with the fields that
`checkSpecificPermission` reads. `group` is `none` when the object has no
`group` property (as in the test file of `validate-simulations.js`). -/
structure File where
  name : String
  owner : String
  group : Option String
  permissions : String
  deriving DecidableEq, Repr

/-- The object returned by `checkSpecificPermission`. -/
structure PermissionResult where
  allowed : Bool
  message : String
  deriving DecidableEq, Repr

/-- The expression `parseInt(perms[i])`: the value of the character at index
`i` when it is a decimal digit; `none` stands for `NaN` (no character at that
index, or a character that is not a digit). Indexing is by character, which is
what JavaScript does for strings without astral characters. -/
def parseIntAt (perms : String) (i : Nat) : Option Nat :=
  match perms.toList[i]? with
  | some c => if c.isDigit then some (c.toNat - 48) else none
  | none => none

/-- The `switch (action)` of `checkSpecificPermission`; `none` stands for
`requiredBit` left `undefined`. -/
def requiredBit (action : String) : Option Nat :=
  if action = "read" then some 4
  else if action = "write" then some 2
  else if action = "execute" then some 1
  else none

/-- The expression `permissionBits & requiredBit`: `NaN` and `undefined` are
converted to 0 by the bitwise operator. -/
def jsBitAnd (a b : Option Nat) : Nat :=
  a.getD 0 &&& b.getD 0

/-- Body of `checkSpecificPermission(file, user, action)`. The message uses
`String.toUpper` for `toUpperCase()`, which agrees with it on ASCII action
names. -/
def checkSpecificPermission (file : File) (user action : String) : PermissionResult :=
  if user = "root" then
    { allowed := true,
      message := "✓ " ++ action.toUpper
        ++ ": Permission GRANTED (root has superuser privileges)" }
  else
    let perms := file.permissions
    let ownerPerms := parseIntAt perms 0
    let groupPerms := parseIntAt perms 1
    let otherPerms := parseIntAt perms 2
    let chosen : Option Nat × String :=
      if user = file.owner then (ownerPerms, "owner")
      else if some user = file.group then (groupPerms, "group member")
      else (otherPerms, "other user")
    let permissionBits := chosen.1
    let userType := chosen.2
    let allowed := jsBitAnd permissionBits (requiredBit action) != 0
    { allowed := allowed,
      message :=
        if allowed then
          "✓ " ++ action.toUpper ++ ": Permission GRANTED (" ++ user ++ " as " ++ userType
            ++ " has " ++ action ++ " access to " ++ file.name ++ ")"
        else
          "✗ " ++ action.toUpper ++ ": Permission DENIED (" ++ user ++ " as " ++ userType
            ++ " lacks " ++ action ++ " access to " ++ file.name
            ++ " with permissions " ++ perms ++ ")" }

/-- The file of the permission tests: `test.txt`, owner and group alice,
permissions 600. -/
def testFile : File :=
  { name := "test.txt", owner := "alice", group := some "alice", permissions := "600" }

/-- No registry entry is its own parent: the `ppid` of every entry is below
its pid. -/
def PpidInv (s : State) : Prop :=
  ∀ r ∈ s.processes, (s.heap r).ppid < (s.heap r).pid

/-- Body of `checkPermission(file, userId, groupId, action)`; its
`switch (action)` is the same as in `checkSpecificPermission`. -/
def checkPermission (file : File) (userId groupId action : String) : PermissionResult :=
  let perms := file.permissions
  let ownerPerms := parseIntAt perms 0
  let groupPerms := parseIntAt perms 1
  let otherPerms := parseIntAt perms 2
  let permissionBits :=
    if userId = file.owner then ownerPerms
    else if some groupId = file.group then groupPerms
    else otherPerms
  let allowed := jsBitAnd permissionBits (requiredBit action) != 0
  { allowed := allowed,
    message := action.toUpper ++ " access to " ++ file.name ++ ": "
      ++ (if allowed then "GRANTED" else "DENIED") ++ " (" ++ perms ++ ")" }

/-- The file `public.txt` of `initFilePermissionSimulator`: owner and group
alice, permissions 644. -/
def publicFile : File :=
  { name := "public.txt", owner := "alice", group := some "alice", permissions := "644" }

/-- An element of `this.physicalFrames`: `{ used, page }`, `page` being `null`
(here `none`) for a free frame. -/
structure PhysicalFrame where
  used : Bool
  page : Option Nat
  deriving DecidableEq, Repr

/-- A value of `this.pageTableEntries`: `{ frame, present }`. -/
structure PageEntry where
  frame : Nat
  present : Bool
  deriving DecidableEq, Repr

/-- The fields of `CSO2Simulator` used by the Virtual Memory Mapper.
`pageTableEntries` is the object keyed by page number, kept as the list of its
(page, entry) properties. -/
structure MemState where
  pageTableEntries : List (Nat × PageEntry)
  physicalFrames : List PhysicalFrame
  deriving DecidableEq, Repr

/-- What `translateAddress` computes: the new state, and the frame number and
physical address it reports. -/
structure Translation where
  state : MemState
  frameNumber : Nat
  physicalAddr : Nat
  deriving DecidableEq, Repr

/-- The state set up by `initVirtualMemoryMapper`: an empty page table and 16
free frames. -/
def initVirtualMemoryMapper : MemState :=
  { pageTableEntries := [],
    physicalFrames := List.replicate 16 { used := false, page := none } }

/-- The `for` loop of `allocateFrame`: the index of the first frame that is
not used, counting from `i`. -/
def firstFree : List PhysicalFrame → Nat → Option Nat
  | [], _ => none
  | f :: rest, i => if !f.used then some i else firstFree rest (i + 1)

/-- Body of `allocateFrame(pageNumber)` on `this.physicalFrames`: the new
frame array and the returned index. `victim` is the index drawn by
`Math.floor(Math.random() * this.physicalFrames.length)`, the array always
having 16 elements; it is read only when no frame is free. -/
def allocateFrame (frames : List PhysicalFrame) (pageNumber : Nat) (victim : Fin 16) :
    List PhysicalFrame × Nat :=
  match firstFree frames 0 with
  | some i => (frames.set i { used := true, page := some pageNumber }, i)
  | none => (frames.set victim.val { used := true, page := some pageNumber }, victim.val)

/-- The expression `this.pageTableEntries[pageNumber]`. -/
def MemState.lookup (s : MemState) (pageNumber : Nat) : Option PageEntry :=
  (s.pageTableEntries.find? (fun e => e.1 == pageNumber)).map (fun e => e.2)

/-- Body of `translateAddress`, `addr` being the number
`parseInt(virtualAddr, 16)` and `victim` the random draw handed to
`allocateFrame`. -/
def translateAddress (s : MemState) (addr : Nat) (victim : Fin 16) : Translation :=
  let pageNumber := addr / 4096
  let offset := addr % 4096
  match s.lookup pageNumber with
  | some entry =>
    { state := s, frameNumber := entry.frame,
      physicalAddr := entry.frame * 4096 + offset }
  | none =>
    let alloc := allocateFrame s.physicalFrames pageNumber victim
    { state :=
        { pageTableEntries :=
            s.pageTableEntries ++ [(pageNumber, { frame := alloc.2, present := true })],
          physicalFrames := alloc.1 },
      frameNumber := alloc.2,
      physicalAddr := alloc.2 * 4096 + offset }

/-- A sequence of `translateAddress` calls, each with its address and its
random draw. -/
def translateAll (s : MemState) (calls : List (Nat × Fin 16)) : MemState :=
  calls.foldl (fun st c => (translateAddress st c.1 c.2).state) s

/-- A sequence of `allocateFrame` calls, each with its page number and its
random draw. -/
def allocateAll (frames : List PhysicalFrame) (calls : List (Nat × Fin 16)) :
    List PhysicalFrame :=
  calls.foldl (fun fs c => (allocateFrame fs c.1 c.2).1) frames

/-- Every page-table entry `page → frame` has
`physicalFrames[frame] = { used: true, page: page }`. -/
def PageTableConsistent (s : MemState) : Prop :=
  ∀ e ∈ s.pageTableEntries,
    s.physicalFrames[e.2.frame]? = some { used := true, page := some e.1 }

/-- Sixteen calls, for pages 0 to 15, that fill the 16 frames in order (the
random draw, here 0, is not read). -/
def fillCalls : List (Nat × Fin 16) :=
  (List.range 16).map (fun p => (p, 0))

/-- The addresses `0x0`, `0x1000`, ... `0xf000` of pages 0 to 15, then
`0x10000` of page 16 with the random draw 5. -/
def seventeenPages : List (Nat × Fin 16) :=
  (List.range 16).map (fun p => (p * 4096, 0)) ++ [(16 * 4096, 5)]

/-! ## Heap and loop lemmas -/

theorem heapSet_same (h : Ref → Process) (r : Ref) (p : Process) :
    heapSet h r p r = p := by
  simp [heapSet]

theorem heapSet_ne (h : Ref → Process) (r x : Ref) (p : Process) (hx : x ≠ r) :
    heapSet h r p x = h x := by
  simp [heapSet, hx]

theorem le_foldr_max (l : List Nat) (r : Nat) (h : r ∈ l) : r ≤ l.foldr max 0 := by
  induction l with
  | nil => cases h
  | cons a t ih =>
    rcases List.mem_cons.mp h with rfl | ht
    · exact le_max_left _ _
    · exact le_trans (ih ht) (le_max_right _ _)

theorem State.lt_freshRef (s : State) (r : Ref) (h : r ∈ s.processes) :
    r < s.freshRef := by
  unfold State.freshRef
  exact Nat.lt_succ_of_le (le_foldr_max _ _ (List.mem_append_left _ h))

theorem State.selected_lt_freshRef (s : State) (r : Ref)
    (h : s.selectedProcess = some r) : r < s.freshRef := by
  unfold State.freshRef
  refine Nat.lt_succ_of_le (le_foldr_max _ _ (List.mem_append_right _ ?_))
  simp [h]

theorem State.pushNew_heap_of_mem (s : State) (obj : Process) (r : Ref)
    (h : r ∈ s.processes) : (s.pushNew obj).heap r = s.heap r := by
  have := s.lt_freshRef r h
  simp only [State.pushNew]
  exact heapSet_ne _ _ _ _ (Nat.ne_of_lt this)

theorem State.pushNew_procs (s : State) (obj : Process) :
    (s.pushNew obj).procs = s.procs ++ [obj] := by
  unfold State.procs
  have h1 : (s.pushNew obj).processes = s.processes ++ [s.freshRef] := rfl
  rw [h1, List.map_append]
  have e1 : s.processes.map (s.pushNew obj).heap = s.processes.map s.heap :=
    List.map_congr_left (fun r hr => s.pushNew_heap_of_mem obj r hr)
  rw [e1]
  simp [State.pushNew, heapSet_same]

theorem adoptChild_heap (acc : (Ref → Process) × List Nat) (c r : Ref) :
    (adoptChild acc c).1 r = if r = c then { acc.1 c with ppid := 1 } else acc.1 r := by
  simp only [adoptChild, heapSet]

theorem foldl_adoptChild_heap (cs : List Ref) (acc : (Ref → Process) × List Nat) (r : Ref) :
    (cs.foldl adoptChild acc).1 r
      = if r ∈ cs then { acc.1 r with ppid := 1 } else acc.1 r := by
  induction cs generalizing acc with
  | nil => simp
  | cons c t ih =>
    rw [List.foldl_cons, ih, adoptChild_heap]
    by_cases hrt : r ∈ t <;> by_cases hrc : r = c <;> simp [hrt, hrc]

theorem foldl_adoptChild_pid (cs : List Ref) (acc : (Ref → Process) × List Nat) (r : Ref) :
    ((cs.foldl adoptChild acc).1 r).pid = (acc.1 r).pid := by
  rw [foldl_adoptChild_heap]; split <;> rfl

theorem foldl_adoptChild_orphans (cs : List Ref) (acc : (Ref → Process) × List Nat) :
    (cs.foldl adoptChild acc).2 = acc.2 ++ cs.map (fun c => (acc.1 c).pid) := by
  induction cs generalizing acc with
  | nil => simp
  | cons c t ih =>
    rw [List.foldl_cons, ih]
    have h1 : (adoptChild acc c).2 = acc.2 ++ [(acc.1 c).pid] := by
      simp [adoptChild, heapSet]
    have h2 : ∀ x, ((adoptChild acc c).1 x).pid = (acc.1 x).pid := by
      intro x; rw [adoptChild_heap]; split
      · next h => subst h; rfl
      · rfl
    simp [h1, h2]

/-! ## Operations that keep the registry membership -/

theorem Frame.refl (s : State) : Frame s s :=
  ⟨rfl, rfl, fun _ => rfl, fun _ _ => rfl, fun _ he => Or.inl he⟩

theorem terminateSpecificProcess_frame (s : State) (process : Ref) :
    Frame s (terminateSpecificProcess s process) := by
  unfold terminateSpecificProcess
  by_cases h1 : (s.heap process).pid = 1
  · simp only [h1, if_true]; exact Frame.refl s
  · simp only [h1, if_false]
    have hpid : ∀ r, ((List.foldl adoptChild
        (heapSet s.heap process { s.heap process with status := Status.zombie },
          s.orphanedProcesses)
        (s.processes.filter (fun p => (s.heap p).ppid == (s.heap process).pid))).1 r).pid
        = (s.heap r).pid := by
      intro r
      rw [foldl_adoptChild_pid]
      simp only [heapSet]
      split
      · next h => subst h; rfl
      · rfl
    refine ⟨rfl, rfl, hpid, ?_, ?_⟩
    · intro r hr
      simp only [foldl_adoptChild_heap, heapSet]
      have hne : r ≠ process := fun h => h1 (h ▸ hr)
      split <;> simp [hne]
    · intro e he
      simp only [List.mem_append, List.mem_singleton] at he
      rcases he with he | he
      · exact Or.inl he
      · right
        rw [he]
        simp only
        rw [hpid]
        exact h1

theorem execProcess_frame (s : State) (choice : Fin 4) :
    Frame s (execProcess s choice) := by
  unfold execProcess
  cases hsel : s.selectedProcess with
  | none => exact Frame.refl s
  | some sel =>
    simp only
    by_cases h1 : (s.heap sel).pid = 1
    · simp only [h1, if_true]; exact Frame.refl s
    · simp only [h1, if_false]
      refine ⟨rfl, rfl, ?_, ?_, fun _ he => Or.inl he⟩
      · intro r
        simp only [heapSet]
        split
        · next h => subst h; rfl
        · rfl
      · intro r hr
        have hne : r ≠ sel := fun h => h1 (h ▸ hr)
        simp [heapSet, hne]

theorem terminateProcess_frame (s : State) : Frame s (terminateProcess s) := by
  unfold terminateProcess
  cases hsel : s.selectedProcess with
  | none => exact Frame.refl s
  | some sel =>
    simp only
    split
    · exact Frame.refl s
    · exact terminateSpecificProcess_frame s sel

theorem killParentProcess_frame (s : State) : Frame s (killParentProcess s) := by
  unfold killParentProcess
  cases hsel : s.selectedProcess with
  | none => exact Frame.refl s
  | some sel =>
    simp only
    split
    · exact Frame.refl s
    · cases s.findByPid (s.heap sel).ppid with
      | none => exact Frame.refl s
      | some parent =>
        simp only
        split
        · exact terminateSpecificProcess_frame s parent
        · exact Frame.refl s

theorem selectProcess_frame (s : State) (pid : Nat) : Frame s (selectProcess s pid) := by
  unfold selectProcess
  cases s.findByPid pid with
  | none => exact Frame.refl s
  | some r => exact ⟨rfl, rfl, fun _ => rfl, fun _ _ => rfl, fun _ he => Or.inl he⟩

theorem terminateButton_frame (s : State) (pid : Nat) :
    Frame s (terminateButton s pid) := by
  unfold terminateButton
  split
  · exact Frame.refl s
  · cases s.findByPid pid with
    | none => exact Frame.refl s
    | some r => exact terminateSpecificProcess_frame s r

theorem Inv.of_frame {s t : State} (hi : Inv s) (hf : Frame s t) : Inv t := by
  obtain ⟨hb, hn, ⟨r0, hr0, hp0, hs0⟩, hp⟩ := hi
  obtain ⟨fp, fn, fpid, fst, fpend⟩ := hf
  refine ⟨?_, ?_, ⟨r0, ?_, ?_, ?_⟩, ?_⟩
  · intro r hr
    rw [fp] at hr
    rw [fpid, fn]
    exact hb r hr
  · rw [fp]
    have : (fun r => (t.heap r).pid) = (fun r => (s.heap r).pid) := funext fpid
    rw [this]; exact hn
  · rw [fp]; exact hr0
  · rw [fpid]; exact hp0
  · rw [fst r0 hp0]; exact hs0
  · intro e he
    rcases fpend e he with h | h
    · exact hp e h
    · exact h

/-! ## The invariant along every run -/

theorem forkProcess_none (s : State) (h : s.selectedProcess = none) :
    forkProcess s = s := by
  simp [forkProcess, h]

theorem forkProcess_some (s : State) (parent : Ref) (h : s.selectedProcess = some parent) :
    forkProcess s = { s with nextPid := s.nextPid + 1 }.pushNew
      { pid := s.nextPid,
        ppid := (s.heap parent).pid,
        name := "child_" ++ (s.heap parent).name,
        status := Status.running,
        fds := (s.heap parent).fds,
        environment := (s.heap parent).environment,
        cwd := (s.heap parent).cwd,
        children := [] } := by
  simp [forkProcess, h]

theorem Inv.pushNew {s : State} (hi : Inv s) (obj : Process)
    (hpid : obj.pid = s.nextPid) :
    Inv ({ s with nextPid := s.nextPid + 1 }.pushNew obj) := by
  obtain ⟨hb, hn, ⟨r0, hr0, hp0, hs0⟩, hp⟩ := hi
  have hheap : ∀ r ∈ s.processes,
      ({ s with nextPid := s.nextPid + 1 }.pushNew obj).heap r = s.heap r :=
    fun r hr => State.pushNew_heap_of_mem { s with nextPid := s.nextPid + 1 } obj r hr
  have hnew : ({ s with nextPid := s.nextPid + 1 }.pushNew obj).heap
      ({ s with nextPid := s.nextPid + 1 } : State).freshRef = obj := heapSet_same _ _ _
  have hprocs : ({ s with nextPid := s.nextPid + 1 }.pushNew obj).processes
      = s.processes ++ [({ s with nextPid := s.nextPid + 1 } : State).freshRef] := rfl
  have hnext : ({ s with nextPid := s.nextPid + 1 }.pushNew obj).nextPid = s.nextPid + 1 := rfl
  have h2 : 2 ≤ s.nextPid := by have := hb r0 hr0; omega
  refine ⟨?_, ?_, ⟨r0, ?_, ?_, ?_⟩, hp⟩
  · intro r hr
    rw [hprocs, List.mem_append, List.mem_singleton] at hr
    rw [hnext]
    rcases hr with hr | hr
    · rw [hheap r hr]
      have := hb r hr
      omega
    · rw [hr, hnew, hpid]; omega
  · rw [hprocs, List.map_append, List.nodup_append]
    refine ⟨?_, by simp, ?_⟩
    · have : s.processes.map
          (fun r => (({ s with nextPid := s.nextPid + 1 }.pushNew obj).heap r).pid)
          = s.processes.map (fun r => (s.heap r).pid) :=
        List.map_congr_left (fun r hr => by rw [hheap r hr])
      rw [this]; exact hn
    · intro a ha hb2
      simp only [List.map_cons, List.map_nil, List.mem_singleton] at hb2
      rw [hnew, hpid] at hb2
      obtain ⟨r, hr, hra⟩ := List.mem_map.mp ha
      rw [hheap r hr] at hra
      have := hb r hr
      omega
  · rw [hprocs]; exact List.mem_append_left _ hr0
  · rw [hheap r0 hr0]; exact hp0
  · rw [hheap r0 hr0]; exact hs0

theorem Inv.forkProcess {s : State} (hi : Inv s) : Inv (forkProcess s) := by
  cases hsel : s.selectedProcess with
  | none => rw [forkProcess_none s hsel]; exact hi
  | some parent => rw [forkProcess_some s parent hsel]; exact hi.pushNew _ rfl

theorem Inv.reapZombie {s : State} (hi : Inv s) (pid : Nat) (hpid : pid ≠ 1) :
    Inv (reapZombie s pid) := by
  obtain ⟨hb, hn, ⟨r0, hr0, hp0, hs0⟩, hp⟩ := hi
  refine ⟨?_, ?_, ⟨r0, ?_, hp0, hs0⟩, hp⟩
  · intro r hr
    exact hb r (List.mem_of_mem_filter hr)
  · exact hn.sublist (List.Sublist.map _ (List.filter_sublist _))
  · simp only [CSO2.reapZombie]
    rw [List.mem_filter]
    refine ⟨hr0, ?_⟩
    simp [hp0, Ne.symm hpid]

theorem Inv.fireReap {s : State} (hi : Inv s) (i : Nat) : Inv (fireReap s i) := by
  unfold CSO2.fireReap
  cases hget : s.pendingReaps[i]? with
  | none => exact hi
  | some entry =>
    simp only
    have hmem : entry ∈ s.pendingReaps := List.getElem?_mem hget
    have hi2 : Inv { s with pendingReaps := s.pendingReaps.eraseIdx i } := by
      obtain ⟨hb, hn, hroot, hp⟩ := hi
      exact ⟨hb, hn, hroot, fun e he => hp e ((List.eraseIdx_sublist _ _).subset he)⟩
    exact hi2.reapZombie entry.1 (hi.2.2.2 entry hmem)

theorem Inv.step {s : State} (hi : Inv s) (op : Op) : Inv (step s op) := by
  cases op with
  | select pid => exact hi.of_frame (selectProcess_frame s pid)
  | fork => exact hi.forkProcess
  | exec choice => exact hi.of_frame (execProcess_frame s choice)
  | terminate => exact hi.of_frame (terminateProcess_frame s)
  | terminateBtn pid => exact hi.of_frame (terminateButton_frame s pid)
  | killParent => exact hi.of_frame (killParentProcess_frame s)
  | reapTimer i => exact hi.fireReap i

theorem Inv.run {s : State} (hi : Inv s) (ops : List Op) : Inv (run s ops) := by
  induction ops generalizing s with
  | nil => exact hi
  | cons op rest ih => exact ih (hi.step op)

theorem Inv.init : Inv initProcessTreeExplorer := by
  unfold Inv
  decide

/-! ## The claims -/

theorem filter_pid_eq_singleton (f : Ref → Process) (l : List Ref) (r0 : Ref) (a : Nat)
    (hn : (l.map (fun r => (f r).pid)).Nodup) (hr0 : r0 ∈ l) (ha : (f r0).pid = a) :
    (l.map f).filter (fun p => p.pid == a) = [f r0] := by
  induction l with
  | nil => cases hr0
  | cons x t ih =>
    rw [List.map_cons, List.nodup_cons] at hn
    have hnone : ∀ t2 : List Ref, (∀ r ∈ t2, (f r).pid ≠ a) →
        (t2.map f).filter (fun p => p.pid == a) = [] := by
      intro t2 h2
      rw [List.filter_eq_nil_iff]
      intro p hp
      obtain ⟨r, hr, rfl⟩ := List.mem_map.mp hp
      simpa using h2 r hr
    rcases List.mem_cons.mp hr0 with rfl | hmem
    · have ht : ∀ r ∈ t, (f r).pid ≠ a := by
        intro r hr hra
        exact hn.1 (List.mem_map.mpr ⟨r, hr, by rw [hra, ha]⟩)
      rw [List.map_cons, List.filter_cons]
      simp [ha, hnone t ht]
    · have hx : (f x).pid ≠ a := by
        intro hxa
        exact hn.1 (List.mem_map.mpr ⟨r0, hmem, by rw [ha, hxa]⟩)
      rw [List.map_cons, List.filter_cons]
      simp [hx, ih hn.2 hmem]

/-- C1 (evaluation at the failing input): on the initial topology, select
bash (pid 2), terminate it, fork from the still selected zombie, then let the
reclamation timer fire. The new process 5 keeps `ppid = 2` although no process
with pid 2 is left in the registry: a dangling parent reference. -/
theorem C1_fork_from_zombie_dangles :
    (run initProcessTreeExplorer
        [Op.select 2, Op.terminate, Op.fork, Op.reapTimer 0]).procs.map
      (fun p => (p.pid, p.ppid, p.status))
      = [(1, 0, Status.running), (3, 1, Status.running), (4, 1, Status.running),
         (5, 2, Status.running)] ∧
    ¬ NoDanglingParent (run initProcessTreeExplorer
        [Op.select 2, Op.terminate, Op.fork, Op.reapTimer 0]) := by
  refine ⟨by decide, ?_⟩
  unfold NoDanglingParent
  decide

/-- C2: in every state reached from the initial topology by any sequence of
operations, the registry holds exactly one process with pid 1 and its status is
running. -/
theorem C2_root_permanent (ops : List Op) :
    ((run initProcessTreeExplorer ops).procs.filter (fun p => p.pid == 1)).map
      Process.status = [Status.running] := by
  obtain ⟨_, hn, ⟨r0, hr0, hp0, hs0⟩, _⟩ := Inv.init.run ops
  unfold State.procs
  rw [filter_pid_eq_singleton _ _ r0 1 hn hr0 hp0]
  simp [hs0]

/-- C4: in every state reached from the initial topology by any sequence of
operations and reap timers, the pids of the entries of the registry are
pairwise distinct. -/
theorem C4_pid_unique (ops : List Op) :
    ((run initProcessTreeExplorer ops).procs.map Process.pid).Nodup := by
  obtain ⟨_, hn, _, _⟩ := Inv.init.run ops
  unfold State.procs
  rw [List.map_map]
  exact hn

theorem run_append (s : State) (a b : List Op) : run s (a ++ b) = run (run s a) b := by
  simp [run, List.foldl_append]

theorem step_nextPid_le (s : State) (op : Op) : s.nextPid ≤ (step s op).nextPid := by
  cases op with
  | select pid => exact le_of_eq (selectProcess_frame s pid).2.1.symm
  | fork =>
    cases hsel : s.selectedProcess with
    | none => simp [step, forkProcess_none s hsel]
    | some parent => simp [step, forkProcess_some s parent hsel, State.pushNew]
  | exec choice => exact le_of_eq (execProcess_frame s choice).2.1.symm
  | terminate => exact le_of_eq (terminateProcess_frame s).2.1.symm
  | terminateBtn pid => exact le_of_eq (terminateButton_frame s pid).2.1.symm
  | killParent => exact le_of_eq (killParentProcess_frame s).2.1.symm
  | reapTimer i =>
    simp only [step, fireReap]
    split <;> simp [reapZombie]

theorem run_nextPid_le (s : State) (ops : List Op) : s.nextPid ≤ (run s ops).nextPid := by
  induction ops generalizing s with
  | nil => exact le_refl _
  | cons op rest ih => exact le_trans (step_nextPid_le s op) (ih (step s op))

/-- C3: let `p` be a process that was in the registry after some prefix
`ops0` of an operation sequence from the initial topology (it may have been
removed since). After the whole sequence `ops0 ++ ops1`, `nextPid` has not
decreased and is strictly greater than `p.pid`; and `forkProcess` then either
creates nothing (no selection) or appends one process whose pid is that
`nextPid`, hence strictly greater than `p.pid`. -/
theorem C3_pid_monotonic (ops0 ops1 : List Op) (p : Process)
    (hp : p ∈ (run initProcessTreeExplorer ops0).procs) :
    (run initProcessTreeExplorer ops0).nextPid
        ≤ (run initProcessTreeExplorer (ops0 ++ ops1)).nextPid ∧
    p.pid < (run initProcessTreeExplorer (ops0 ++ ops1)).nextPid ∧
    (forkProcess (run initProcessTreeExplorer (ops0 ++ ops1))
        = run initProcessTreeExplorer (ops0 ++ ops1) ∨
      ∃ c, (forkProcess (run initProcessTreeExplorer (ops0 ++ ops1))).procs
          = (run initProcessTreeExplorer (ops0 ++ ops1)).procs ++ [c] ∧
        c.pid = (run initProcessTreeExplorer (ops0 ++ ops1)).nextPid ∧
        p.pid < c.pid) := by
  have hmono : (run initProcessTreeExplorer ops0).nextPid
      ≤ (run initProcessTreeExplorer (ops0 ++ ops1)).nextPid := by
    rw [run_append]; exact run_nextPid_le _ _
  have hlt : p.pid < (run initProcessTreeExplorer (ops0 ++ ops1)).nextPid := by
    obtain ⟨hb, _, _, _⟩ := Inv.init.run ops0
    obtain ⟨r, hr, rfl⟩ := List.mem_map.mp hp
    exact lt_of_lt_of_le (hb r hr).2 hmono
  refine ⟨hmono, hlt, ?_⟩
  cases hsel : (run initProcessTreeExplorer (ops0 ++ ops1)).selectedProcess with
  | none => exact Or.inl (forkProcess_none _ hsel)
  | some parent =>
    right
    rw [forkProcess_some _ parent hsel, State.pushNew_procs]
    exact ⟨_, rfl, rfl, hlt⟩

/-- C3 (witness): bash (pid 2) is in the registry after it is terminated; once
it has been reaped and vim selected, `nextPid` is still above 2 and a fork
issues a pid above 2. -/
theorem C3_pid_monotonic_witness :
    (run initProcessTreeExplorer [Op.select 2, Op.terminate]).heap 1
        ∈ (run initProcessTreeExplorer [Op.select 2, Op.terminate]).procs ∧
    ((run initProcessTreeExplorer [Op.select 2, Op.terminate]).nextPid
        ≤ (run initProcessTreeExplorer
            ([Op.select 2, Op.terminate] ++ [Op.reapTimer 0, Op.select 3])).nextPid ∧
    ((run initProcessTreeExplorer [Op.select 2, Op.terminate]).heap 1).pid
        < (run initProcessTreeExplorer
            ([Op.select 2, Op.terminate] ++ [Op.reapTimer 0, Op.select 3])).nextPid ∧
    (forkProcess (run initProcessTreeExplorer
            ([Op.select 2, Op.terminate] ++ [Op.reapTimer 0, Op.select 3]))
        = run initProcessTreeExplorer
            ([Op.select 2, Op.terminate] ++ [Op.reapTimer 0, Op.select 3]) ∨
      ∃ c, (forkProcess (run initProcessTreeExplorer
            ([Op.select 2, Op.terminate] ++ [Op.reapTimer 0, Op.select 3]))).procs
          = (run initProcessTreeExplorer
            ([Op.select 2, Op.terminate] ++ [Op.reapTimer 0, Op.select 3])).procs ++ [c] ∧
        c.pid = (run initProcessTreeExplorer
            ([Op.select 2, Op.terminate] ++ [Op.reapTimer 0, Op.select 3])).nextPid ∧
        ((run initProcessTreeExplorer [Op.select 2, Op.terminate]).heap 1).pid < c.pid)) :=
  ⟨List.mem_map.mpr ⟨1, by decide, rfl⟩,
   C3_pid_monotonic [Op.select 2, Op.terminate] [Op.reapTimer 0, Op.select 3] _
     (List.mem_map.mpr ⟨1, by decide, rfl⟩)⟩

/-- C5: with a process `P` selected, `forkProcess` appends exactly one process
`C` to the registry, with `C.pid` the former `nextPid`, `C.ppid = P.pid`,
status running, the fds, environment and cwd of `P`, the name `child_` followed
by `P.name`; and `nextPid` grows by exactly 1. -/
theorem C5_fork_postcondition (s : State) (parent : Ref)
    (hsel : s.selectedProcess = some parent) :
    ∃ c, (forkProcess s).procs = s.procs ++ [c] ∧
      c.pid = s.nextPid ∧
      c.ppid = (s.heap parent).pid ∧
      c.status = Status.running ∧
      c.fds = (s.heap parent).fds ∧
      c.environment = (s.heap parent).environment ∧
      c.cwd = (s.heap parent).cwd ∧
      c.name = "child_" ++ (s.heap parent).name ∧
      (forkProcess s).nextPid = s.nextPid + 1 := by
  rw [forkProcess_some s parent hsel, State.pushNew_procs]
  exact ⟨_, rfl, rfl, rfl, rfl, rfl, rfl, rfl, rfl, rfl⟩

/-- C5 (witness): forking from bash on the initial topology. -/
theorem C5_fork_postcondition_witness :
    (selectProcess initProcessTreeExplorer 2).selectedProcess = some 1 ∧
    ∃ c, (forkProcess (selectProcess initProcessTreeExplorer 2)).procs
        = (selectProcess initProcessTreeExplorer 2).procs ++ [c] ∧
      c.pid = (selectProcess initProcessTreeExplorer 2).nextPid ∧
      c.ppid = ((selectProcess initProcessTreeExplorer 2).heap 1).pid ∧
      c.status = Status.running ∧
      c.fds = ((selectProcess initProcessTreeExplorer 2).heap 1).fds ∧
      c.environment = ((selectProcess initProcessTreeExplorer 2).heap 1).environment ∧
      c.cwd = ((selectProcess initProcessTreeExplorer 2).heap 1).cwd ∧
      c.name = "child_" ++ ((selectProcess initProcessTreeExplorer 2).heap 1).name ∧
      (forkProcess (selectProcess initProcessTreeExplorer 2)).nextPid
        = (selectProcess initProcessTreeExplorer 2).nextPid + 1 :=
  ⟨by decide, C5_fork_postcondition (selectProcess initProcessTreeExplorer 2) 1 (by decide)⟩

theorem terminateSpecificProcess_of_ne (s : State) (process : Ref)
    (h : (s.heap process).pid ≠ 1) :
    terminateSpecificProcess s process =
      { s with
        heap := ((s.processes.filter
            (fun p => (s.heap p).ppid == (s.heap process).pid)).foldl adoptChild
            (heapSet s.heap process { s.heap process with status := Status.zombie },
              s.orphanedProcesses)).1,
        zombieProcesses := s.zombieProcesses ++ [(s.heap process).pid],
        orphanedProcesses := ((s.processes.filter
            (fun p => (s.heap p).ppid == (s.heap process).pid)).foldl adoptChild
            (heapSet s.heap process { s.heap process with status := Status.zombie },
              s.orphanedProcesses)).2,
        pendingReaps := s.pendingReaps ++ [((s.heap process).pid, 2000)] } := by
  have hpid : (heapSet s.heap process
      { s.heap process with status := Status.zombie } process).pid = (s.heap process).pid := by
    rw [heapSet_same]
  simp only [terminateSpecificProcess, h, if_false, foldl_adoptChild_pid, hpid]

theorem heapSet_status_pid (h : Ref → Process) (r x : Ref) (st : Status) :
    (heapSet h r { h r with status := st } x).pid = (h x).pid := by
  simp only [heapSet]
  split
  · next e => subst e; rfl
  · rfl

/-- C6: for a process `P` with `P.pid ≠ 1`, after
`terminateSpecificProcess(P)` every registry entry whose `ppid` was `P.pid`
has `ppid = 1`, and the call appends to `orphanedProcesses` exactly the pids of
those entries, in registry order. -/
theorem C6_orphan_reparenting (s : State) (P : Ref) (hne : (s.heap P).pid ≠ 1) :
    (∀ c ∈ s.processes, (s.heap c).ppid = (s.heap P).pid →
        ((terminateSpecificProcess s P).heap c).ppid = 1) ∧
    (terminateSpecificProcess s P).orphanedProcesses
      = s.orphanedProcesses
          ++ (s.procs.filter (fun p => p.ppid == (s.heap P).pid)).map Process.pid := by
  rw [terminateSpecificProcess_of_ne s P hne]
  constructor
  · intro c hc hpp
    simp only [foldl_adoptChild_heap]
    have hmem : c ∈ s.processes.filter (fun p => (s.heap p).ppid == (s.heap P).pid) := by
      rw [List.mem_filter]; exact ⟨hc, by simp [hpp]⟩
    rw [if_pos hmem]
  · simp only [foldl_adoptChild_orphans, heapSet_status_pid]
    unfold State.procs
    rw [List.filter_map, List.map_map]
    rfl

/-- C6 (witness): on root(1) → A(2) → B(3), terminating A gives B `ppid = 1`
and appends `[3]` to the orphan list. -/
theorem C6_orphan_reparenting_witness :
    (chainExample.heap 1).pid ≠ 1 ∧
    ((terminateSpecificProcess chainExample 1).procs.map
        (fun p => (p.pid, p.ppid, p.status))
      = [(1, 0, Status.running), (2, 1, Status.zombie), (3, 1, Status.running)]) ∧
    (terminateSpecificProcess chainExample 1).orphanedProcesses = [3] ∧
    ((∀ c ∈ chainExample.processes, (chainExample.heap c).ppid = (chainExample.heap 1).pid →
        ((terminateSpecificProcess chainExample 1).heap c).ppid = 1) ∧
    (terminateSpecificProcess chainExample 1).orphanedProcesses
      = chainExample.orphanedProcesses
          ++ (chainExample.procs.filter
                (fun p => p.ppid == (chainExample.heap 1).pid)).map Process.pid) :=
  ⟨by decide, by decide, by decide, C6_orphan_reparenting chainExample 1 (by decide)⟩

/-- C7: on the initial topology (init 1, bash 2 under 1, vim 3 and gcc 4 under
2), terminating the process with pid 2 leaves it a zombie, gives pids 3 and 4
`ppid = 1`, makes `orphanedProcesses = [3, 4]` and schedules one reap of pid 2;
when that timer fires no process with pid 2 is left while 1, 3 and 4 remain. -/
theorem C7_end_to_end :
    initProcessTreeExplorer.procs.map (fun p => (p.pid, p.ppid, p.name, p.status))
      = [(1, 0, "init", Status.running), (2, 1, "bash", Status.running),
         (3, 2, "vim", Status.running), (4, 2, "gcc", Status.running)] ∧
    initProcessTreeExplorer.findByPid 2 = some 1 ∧
    (terminateSpecificProcess initProcessTreeExplorer 1).procs.map
        (fun p => (p.pid, p.ppid, p.status))
      = [(1, 0, Status.running), (2, 1, Status.zombie),
         (3, 1, Status.running), (4, 1, Status.running)] ∧
    (terminateSpecificProcess initProcessTreeExplorer 1).orphanedProcesses = [3, 4] ∧
    (terminateSpecificProcess initProcessTreeExplorer 1).pendingReaps = [(2, 2000)] ∧
    (fireReap (terminateSpecificProcess initProcessTreeExplorer 1) 0).procs.map
        (fun p => (p.pid, p.ppid, p.status))
      = [(1, 0, Status.running), (3, 1, Status.running), (4, 1, Status.running)] ∧
    (fireReap (terminateSpecificProcess initProcessTreeExplorer 1) 0).findByPid 2 = none ∧
    (fireReap (terminateSpecificProcess initProcessTreeExplorer 1) 0).pendingReaps = [] := by
  decide

/-- C8: with a process `P` selected, `P.pid ≠ 1`, and whatever index the
random draw gives, `execProcess` keeps `P.pid`, `P.ppid`, `P.environment`,
`P.cwd` and `P.status`, sets `P.name` and `P.fds` to the name and fds of the
drawn entry of the table (python, node, java, firefox), and changes no other
object, nor the registry list, `nextPid`, the selection, the orphan and zombie
lists or the pending reaps. -/
theorem C8_exec_identity (s : State) (P : Ref) (choice : Fin 4)
    (hsel : s.selectedProcess = some P) (hne : (s.heap P).pid ≠ 1) :
    ((execProcess s choice).heap P).pid = (s.heap P).pid ∧
    ((execProcess s choice).heap P).ppid = (s.heap P).ppid ∧
    ((execProcess s choice).heap P).environment = (s.heap P).environment ∧
    ((execProcess s choice).heap P).cwd = (s.heap P).cwd ∧
    ((execProcess s choice).heap P).status = (s.heap P).status ∧
    ((execProcess s choice).heap P).name
      = (programs.get ⟨choice.val, choice.isLt⟩).name ∧
    ((execProcess s choice).heap P).fds
      = (programs.get ⟨choice.val, choice.isLt⟩).fds ∧
    programs.map Program.name = ["python", "node", "java", "firefox"] ∧
    (∀ r, r ≠ P → (execProcess s choice).heap r = s.heap r) ∧
    (execProcess s choice).processes = s.processes ∧
    (execProcess s choice).nextPid = s.nextPid ∧
    (execProcess s choice).selectedProcess = s.selectedProcess ∧
    (execProcess s choice).orphanedProcesses = s.orphanedProcesses ∧
    (execProcess s choice).zombieProcesses = s.zombieProcesses ∧
    (execProcess s choice).pendingReaps = s.pendingReaps := by
  have hheap : ∀ r, (execProcess s choice).heap r
      = if r = P then
          { s.heap P with name := (programs.get ⟨choice.val, choice.isLt⟩).name,
                          fds := (programs.get ⟨choice.val, choice.isLt⟩).fds }
        else s.heap r := by
    intro r
    simp only [execProcess, hsel, hne, if_false, heapSet]
    split <;> rfl
  have hrest : (execProcess s choice).processes = s.processes ∧
      (execProcess s choice).nextPid = s.nextPid ∧
      (execProcess s choice).selectedProcess = s.selectedProcess ∧
      (execProcess s choice).orphanedProcesses = s.orphanedProcesses ∧
      (execProcess s choice).zombieProcesses = s.zombieProcesses ∧
      (execProcess s choice).pendingReaps = s.pendingReaps := by
    simp only [execProcess, hsel, hne, if_false, and_self]
  rw [hheap P, if_pos rfl]
  refine ⟨rfl, rfl, rfl, rfl, rfl, rfl, rfl, by decide, ?_, hrest⟩
  intro r hr
  rw [hheap r, if_neg hr]

/-- C8 (witness): vim (pid 3) selected on the initial topology, the draw
giving index 2 (java). -/
theorem C8_exec_identity_witness :
    ((execProcess (selectProcess initProcessTreeExplorer 3) 2).procs.map
        (fun p => (p.pid, p.ppid, p.name, p.fds))
      = [(1, 0, "init", [0, 1, 2]), (2, 1, "bash", [0, 1, 2, 3]),
         (3, 2, "java", [0, 1, 2, 10, 11, 12]), (4, 2, "gcc", [0, 1, 2, 5, 6])]) ∧
    ((execProcess (selectProcess initProcessTreeExplorer 3) 2).heap 2).pid
      = ((selectProcess initProcessTreeExplorer 3).heap 2).pid :=
  ⟨by decide,
   (C8_exec_identity (selectProcess initProcessTreeExplorer 3) 2 2
      (by decide) (by decide)).1⟩

/-- C9: when the selected process is the pid-1 root, `terminateProcess`,
`execProcess` and `killParentProcess` return the state unchanged (registry,
`nextPid`, orphan and zombie lists, pending reaps); and
`terminateSpecificProcess` called on an object with pid 1 changes nothing. -/
theorem C9_protected_root (s : State) (sel root : Ref) (choice : Fin 4)
    (hsel : s.selectedProcess = some sel) (hsel1 : (s.heap sel).pid = 1)
    (hroot : (s.heap root).pid = 1) :
    terminateProcess s = s ∧
    execProcess s choice = s ∧
    killParentProcess s = s ∧
    terminateSpecificProcess s root = s := by
  refine ⟨?_, ?_, ?_, ?_⟩
  · simp [terminateProcess, hsel, hsel1]
  · simp [execProcess, hsel, hsel1]
  · simp [killParentProcess, hsel, hsel1]
  · simp [terminateSpecificProcess, hroot]

/-- C9 (witness): init selected on the initial topology. -/
theorem C9_protected_root_witness :
    (selectProcess initProcessTreeExplorer 1).selectedProcess = some 0 ∧
    ((selectProcess initProcessTreeExplorer 1).heap 0).pid = 1 ∧
    (terminateProcess (selectProcess initProcessTreeExplorer 1)
        = selectProcess initProcessTreeExplorer 1 ∧
      execProcess (selectProcess initProcessTreeExplorer 1) 3
        = selectProcess initProcessTreeExplorer 1 ∧
      killParentProcess (selectProcess initProcessTreeExplorer 1)
        = selectProcess initProcessTreeExplorer 1 ∧
      terminateSpecificProcess (selectProcess initProcessTreeExplorer 1) 0
        = selectProcess initProcessTreeExplorer 1) :=
  ⟨by decide, by decide,
   C9_protected_root (selectProcess initProcessTreeExplorer 1) 0 0 3
     (by decide) (by decide) (by decide)⟩

/-- C10: `reapZombie(pid)` applied twice gives the same state (registry,
zombie list, selection and everything else) as applied once; and on a state
whose registry holds no process with that pid it leaves the registry list
unchanged. -/
theorem C10_reap_idempotent (s : State) (pid : Nat) :
    reapZombie (reapZombie s pid) pid = reapZombie s pid ∧
    ((∀ r ∈ s.processes, (s.heap r).pid ≠ pid) →
      (reapZombie s pid).processes = s.processes) := by
  constructor
  · cases hsel : s.selectedProcess with
    | none => simp [reapZombie, hsel, List.filter_filter]
    | some sel =>
      by_cases h : (s.heap sel).pid = pid
      · simp [reapZombie, hsel, h, List.filter_filter]
      · simp [reapZombie, hsel, h, List.filter_filter]
  · intro hall
    simp only [reapZombie]
    rw [List.filter_eq_self]
    intro r hr
    simpa using hall r hr

/-- C10 (witness): reaping pid 9, which is not in the initial registry, twice
or once, and the registry list it leaves. -/
theorem C10_reap_idempotent_witness :
    reapZombie (reapZombie initProcessTreeExplorer 9) 9
        = reapZombie initProcessTreeExplorer 9 ∧
    (reapZombie initProcessTreeExplorer 9).processes
        = initProcessTreeExplorer.processes :=
  ⟨(C10_reap_idempotent initProcessTreeExplorer 9).1,
   (C10_reap_idempotent initProcessTreeExplorer 9).2 (by decide)⟩

/-! ## Status is only ever set to zombie; pending reclamations target zombies -/

theorem terminateSpecificProcess_status (s : State) (P r : Ref)
    (h : (s.heap P).pid ≠ 1) :
    ((terminateSpecificProcess s P).heap r).status
      = if r = P then Status.zombie else (s.heap r).status := by
  rw [terminateSpecificProcess_of_ne s P h]
  simp only [foldl_adoptChild_heap, heapSet]
  by_cases hr : r = P
  · subst hr; split <;> simp
  · split <;> simp [hr]

theorem terminateSpecificProcess_zombie_stays (s : State) (P r : Ref)
    (hz : (s.heap r).status = Status.zombie) :
    ((terminateSpecificProcess s P).heap r).status = Status.zombie := by
  by_cases h : (s.heap P).pid = 1
  · simp [terminateSpecificProcess, h, hz]
  · rw [terminateSpecificProcess_status s P r h]
    split
    · rfl
    · exact hz

theorem execProcess_status (s : State) (choice : Fin 4) (r : Ref) :
    ((execProcess s choice).heap r).status = (s.heap r).status := by
  unfold execProcess
  cases s.selectedProcess with
  | none => rfl
  | some sel =>
    simp only
    split
    · rfl
    · simp only [heapSet]
      split
      · next e => subst e; rfl
      · rfl

theorem execProcess_rest (s : State) (choice : Fin 4) :
    (execProcess s choice).processes = s.processes ∧
    (execProcess s choice).selectedProcess = s.selectedProcess ∧
    (execProcess s choice).pendingReaps = s.pendingReaps := by
  cases hsel : s.selectedProcess with
  | none => simp [execProcess, hsel]
  | some sel =>
    by_cases h : (s.heap sel).pid = 1 <;> simp [execProcess, hsel, h]

theorem State.findByPid_mem (s : State) (pid : Nat) (r : Ref)
    (h : s.findByPid pid = some r) : r ∈ s.processes ∧ (s.heap r).pid = pid := by
  unfold State.findByPid at h
  refine ⟨List.mem_of_find?_eq_some h, ?_⟩
  simpa using List.find?_some h

theorem Inv2.keeps_terminateSpecificProcess {s : State} (hi : Inv2 s) (P : Ref)
    (hP : P ∈ s.processes) : Inv2 (terminateSpecificProcess s P) := by
  by_cases h : (s.heap P).pid = 1
  · have : CSO2.terminateSpecificProcess s P = s := by
      simp [CSO2.terminateSpecificProcess, h]
    rw [this]; exact hi
  · obtain ⟨hinv, hsel, hpend⟩ := hi
    have hf := terminateSpecificProcess_frame s P
    refine ⟨hinv.of_frame hf, ?_, ?_⟩
    · intro r hr
      rw [hf.1]
      apply hsel
      rw [terminateSpecificProcess_of_ne s P h] at hr
      exact hr
    · intro e he
      have hpe : (CSO2.terminateSpecificProcess s P).pendingReaps
          = s.pendingReaps ++ [((s.heap P).pid, 2000)] := by
        rw [terminateSpecificProcess_of_ne s P h]
      rw [hpe, List.mem_append, List.mem_singleton] at he
      rw [hf.1, hf.2.1]
      rcases he with he | he
      · refine ⟨(hpend e he).1, ?_⟩
        intro r hr hpid
        rw [hf.2.2.1] at hpid
        exact terminateSpecificProcess_zombie_stays s P r ((hpend e he).2 r hr hpid)
      · subst he
        refine ⟨(hinv.1 P hP).2, ?_⟩
        intro r hr hpid
        rw [hf.2.2.1] at hpid
        have hrP : r = P := List.inj_on_of_nodup_map hinv.2.1 hr hP hpid
        rw [terminateSpecificProcess_status s P r h, if_pos hrP]

theorem Inv2.keeps_terminateProcess {s : State} (hi : Inv2 s) : Inv2 (terminateProcess s) := by
  unfold CSO2.terminateProcess
  cases hsel : s.selectedProcess with
  | none => exact hi
  | some sel =>
    simp only
    split
    · exact hi
    · exact hi.keeps_terminateSpecificProcess sel (hi.2.1 sel hsel)

theorem Inv2.keeps_killParentProcess {s : State} (hi : Inv2 s) : Inv2 (killParentProcess s) := by
  unfold CSO2.killParentProcess
  cases hsel : s.selectedProcess with
  | none => exact hi
  | some sel =>
    simp only
    split
    · exact hi
    · cases hfind : s.findByPid (s.heap sel).ppid with
      | none => exact hi
      | some parent =>
        simp only
        split
        · exact hi.keeps_terminateSpecificProcess parent (s.findByPid_mem _ _ hfind).1
        · exact hi

theorem Inv2.keeps_terminateButton {s : State} (hi : Inv2 s) (pid : Nat) :
    Inv2 (terminateButton s pid) := by
  unfold CSO2.terminateButton
  split
  · exact hi
  · cases hfind : s.findByPid pid with
    | none => exact hi
    | some r => exact hi.keeps_terminateSpecificProcess r (s.findByPid_mem _ _ hfind).1

theorem Inv2.keeps_selectProcess {s : State} (hi : Inv2 s) (pid : Nat) :
    Inv2 (selectProcess s pid) := by
  refine ⟨hi.1.of_frame (selectProcess_frame s pid), ?_, ?_⟩
  · unfold CSO2.selectProcess
    cases hfind : s.findByPid pid with
    | none => exact hi.2.1
    | some r =>
      intro r2 hr2
      simp only [Option.some.injEq] at hr2
      subst hr2
      exact (s.findByPid_mem _ _ hfind).1
  · unfold CSO2.selectProcess
    cases s.findByPid pid with
    | none => exact hi.2.2
    | some r => exact hi.2.2

theorem Inv2.keeps_execProcess {s : State} (hi : Inv2 s) (choice : Fin 4) :
    Inv2 (execProcess s choice) := by
  have hf := execProcess_frame s choice
  obtain ⟨hp, hs, hpe⟩ := execProcess_rest s choice
  refine ⟨hi.1.of_frame hf, ?_, ?_⟩
  · intro r hr
    rw [hp]; rw [hs] at hr; exact hi.2.1 r hr
  · intro e he
    rw [hpe] at he
    rw [hf.2.1, hp]
    refine ⟨(hi.2.2 e he).1, ?_⟩
    intro r hr hpid
    rw [hf.2.2.1] at hpid
    rw [execProcess_status]
    exact (hi.2.2 e he).2 r hr hpid

theorem Inv2.keeps_forkProcess {s : State} (hi : Inv2 s) : Inv2 (forkProcess s) := by
  cases hsel : s.selectedProcess with
  | none => rw [forkProcess_none s hsel]; exact hi
  | some parent =>
    refine ⟨hi.1.forkProcess, ?_, ?_⟩
    · rw [forkProcess_some s parent hsel]
      intro r hr
      have hr2 : s.selectedProcess = some r := hr
      exact List.mem_append_left _ (hi.2.1 r hr2)
    · rw [forkProcess_some s parent hsel]
      intro e he
      have he2 : e ∈ s.pendingReaps := he
      obtain ⟨hlt, hz⟩ := hi.2.2 e he2
      refine ⟨Nat.lt_succ_of_lt hlt, ?_⟩
      intro r hr hpid
      have hr2 : r ∈ s.processes ++ [({ s with nextPid := s.nextPid + 1 } : State).freshRef] := hr
      rw [List.mem_append, List.mem_singleton] at hr2
      rcases hr2 with hr2 | hr2
      · have hh := State.pushNew_heap_of_mem { s with nextPid := s.nextPid + 1 }
          { pid := s.nextPid, ppid := (s.heap parent).pid,
            name := "child_" ++ (s.heap parent).name, status := Status.running,
            fds := (s.heap parent).fds, environment := (s.heap parent).environment,
            cwd := (s.heap parent).cwd, children := [] } r hr2
        rw [hh] at hpid ⊢
        exact hz r hr2 hpid
      · exfalso
        rw [hr2] at hpid
        simp only [State.pushNew, heapSet_same] at hpid
        omega

theorem Inv2.keeps_fireReap {s : State} (hi : Inv2 s) (i : Nat) : Inv2 (fireReap s i) := by
  refine ⟨hi.1.fireReap i, ?_, ?_⟩
  · unfold CSO2.fireReap
    cases hget : s.pendingReaps[i]? with
    | none => exact hi.2.1
    | some entry =>
      intro r hr
      simp only [reapZombie] at hr ⊢
      cases hsel : s.selectedProcess with
      | none => simp [hsel] at hr
      | some sel =>
        simp only [hsel] at hr
        by_cases hp : (s.heap sel).pid = entry.1
        · simp [hp] at hr
        · simp only [hp, if_false, Option.some.injEq] at hr
          subst hr
          rw [List.mem_filter]
          exact ⟨hi.2.1 sel hsel, by simpa using hp⟩
  · unfold CSO2.fireReap
    cases hget : s.pendingReaps[i]? with
    | none => exact hi.2.2
    | some entry =>
      intro e he
      have he2 : e ∈ s.pendingReaps := (List.eraseIdx_sublist _ _).subset he
      obtain ⟨hlt, hz⟩ := hi.2.2 e he2
      refine ⟨hlt, ?_⟩
      intro r hr hpid
      exact hz r (List.mem_of_mem_filter hr) hpid

theorem Inv2.keeps_step {s : State} (hi : Inv2 s) (op : Op) : Inv2 (step s op) := by
  cases op with
  | select pid => exact hi.keeps_selectProcess pid
  | fork => exact hi.keeps_forkProcess
  | exec choice => exact hi.keeps_execProcess choice
  | terminate => exact hi.keeps_terminateProcess
  | terminateBtn pid => exact hi.keeps_terminateButton pid
  | killParent => exact hi.keeps_killParentProcess
  | reapTimer i => exact hi.keeps_fireReap i

theorem Inv2.keeps_run {s : State} (hi : Inv2 s) (ops : List Op) : Inv2 (run s ops) := by
  induction ops generalizing s with
  | nil => exact hi
  | cons op rest ih => exact ih (hi.keeps_step op)

theorem Inv2.holds_initially : Inv2 initProcessTreeExplorer := by
  refine ⟨Inv.init, ?_, ?_⟩
  · intro r hr
    have hnone : initProcessTreeExplorer.selectedProcess = none := by decide
    rw [hnone] at hr
    cases hr
  · intro e he
    have hnil : initProcessTreeExplorer.pendingReaps = [] := by decide
    rw [hnil] at he
    cases he

/-- C11 (counterexample): on the initial topology vim (pid 3) is in the
registry with status running, and `reapZombie(3)` removes it all the same:
the function looks at the pid only, never at the status. -/
theorem C11_reap_removes_running :
    initProcessTreeExplorer.procs.map (fun p => (p.pid, p.status))
      = [(1, Status.running), (2, Status.running), (3, Status.running),
         (4, Status.running)] ∧
    (reapZombie initProcessTreeExplorer 3).procs.map (fun p => (p.pid, p.status))
      = [(1, Status.running), (2, Status.running), (4, Status.running)] := by
  decide

/-- C11 (amended): in a state reached from the initial topology, let the
`i`-th pending reclamation, for pid `e.1`, fire. An entry of the registry is
removed exactly when it carries that pid, and then it is a zombie; an entry
with status running, in particular the pid-1 root, stays in the registry; and
no object is modified. -/
theorem C11_timer_reaps_only_zombies (ops : List Op) (i : Nat) (e : Nat × Nat) (r : Ref)
    (hpend : (run initProcessTreeExplorer ops).pendingReaps[i]? = some e)
    (hr : r ∈ (run initProcessTreeExplorer ops).processes) :
    (r ∉ (fireReap (run initProcessTreeExplorer ops) i).processes
      ↔ ((run initProcessTreeExplorer ops).heap r).pid = e.1) ∧
    (((run initProcessTreeExplorer ops).heap r).pid = e.1 →
      ((run initProcessTreeExplorer ops).heap r).status = Status.zombie) ∧
    (((run initProcessTreeExplorer ops).heap r).status = Status.running →
      r ∈ (fireReap (run initProcessTreeExplorer ops) i).processes) ∧
    (((run initProcessTreeExplorer ops).heap r).pid = 1 →
      r ∈ (fireReap (run initProcessTreeExplorer ops) i).processes) ∧
    (fireReap (run initProcessTreeExplorer ops) i).heap
      = (run initProcessTreeExplorer ops).heap := by
  obtain ⟨hinv, _, hpi⟩ := Inv2.holds_initially.keeps_run ops
  have hmem : e ∈ (run initProcessTreeExplorer ops).pendingReaps := List.getElem?_mem hpend
  have hz := (hpi e hmem).2 r hr
  have hprocs : (fireReap (run initProcessTreeExplorer ops) i).processes
      = (run initProcessTreeExplorer ops).processes.filter
          (fun p => ((run initProcessTreeExplorer ops).heap p).pid != e.1) := by
    simp only [fireReap, hpend, reapZombie]
  have hheap : (fireReap (run initProcessTreeExplorer ops) i).heap
      = (run initProcessTreeExplorer ops).heap := by
    simp only [fireReap, hpend, reapZombie]
  have hiff : r ∉ (fireReap (run initProcessTreeExplorer ops) i).processes
      ↔ ((run initProcessTreeExplorer ops).heap r).pid = e.1 := by
    rw [hprocs, List.mem_filter]
    simp [hr]
  refine ⟨hiff, hz, ?_, ?_, hheap⟩
  · intro hrun
    by_contra hnot
    have := hz (hiff.mp hnot)
    rw [hrun] at this
    cases this
  · intro h1
    by_contra hnot
    exact hinv.2.2.2 e hmem ((hiff.mp hnot).symm.trans h1)

/-- C11 (witness): after bash (pid 2) is terminated, its pending reclamation
fires; bash, a zombie, is the entry at address 1. -/
theorem C11_timer_reaps_only_zombies_witness :
    (run initProcessTreeExplorer [Op.select 2, Op.terminate]).pendingReaps[0]?
      = some (2, 2000) ∧
    (fireReap (run initProcessTreeExplorer [Op.select 2, Op.terminate]) 0).procs.map
        (fun p => (p.pid, p.status))
      = [(1, Status.running), (3, Status.running), (4, Status.running)] ∧
    (1 ∉ (fireReap (run initProcessTreeExplorer [Op.select 2, Op.terminate]) 0).processes
      ↔ ((run initProcessTreeExplorer [Op.select 2, Op.terminate]).heap 1).pid = 2) :=
  ⟨by decide, by decide,
   (C11_timer_reaps_only_zombies [Op.select 2, Op.terminate] 0 (2, 2000) 1
      (by decide) (by decide)).1⟩

theorem killParentProcess_of_ppid_one (s : State) (sel : Ref)
    (hsel : s.selectedProcess = some sel) (hpid : (s.heap sel).pid ≠ 1)
    (hppid : (s.heap sel).ppid = 1) :
    killParentProcess s = s := by
  unfold killParentProcess
  simp only [hsel, hpid, if_false, hppid]
  cases hfind : s.findByPid 1 with
  | none => rfl
  | some parent =>
    have := (s.findByPid_mem 1 parent hfind).2
    simp [this]

/-- C12: when the selected process has a pid other than 1 and `ppid = 1`,
`killParentProcess` returns the state unchanged: nothing is terminated, no
list is touched and no reap is scheduled. -/
theorem C12_no_killable_parent (s : State) (sel : Ref)
    (hsel : s.selectedProcess = some sel) (hpid : (s.heap sel).pid ≠ 1)
    (hppid : (s.heap sel).ppid = 1) :
    killParentProcess s = s ∧
    (killParentProcess s).procs = s.procs ∧
    (killParentProcess s).orphanedProcesses = s.orphanedProcesses ∧
    (killParentProcess s).zombieProcesses = s.zombieProcesses ∧
    (killParentProcess s).nextPid = s.nextPid ∧
    (killParentProcess s).pendingReaps = s.pendingReaps := by
  rw [killParentProcess_of_ppid_one s sel hsel hpid hppid]
  exact ⟨rfl, rfl, rfl, rfl, rfl, rfl⟩

/-- C12 (witness): bash (pid 2, child of init) selected on the initial
topology. -/
theorem C12_no_killable_parent_witness :
    (selectProcess initProcessTreeExplorer 2).selectedProcess = some 1 ∧
    ((selectProcess initProcessTreeExplorer 2).heap 1).pid = 2 ∧
    ((selectProcess initProcessTreeExplorer 2).heap 1).ppid = 1 ∧
    killParentProcess (selectProcess initProcessTreeExplorer 2)
      = selectProcess initProcessTreeExplorer 2 :=
  ⟨by decide, by decide, by decide,
   (C12_no_killable_parent (selectProcess initProcessTreeExplorer 2) 1
     (by decide) (by decide) (by decide)).1⟩

theorem terminateSpecificProcess_lists_of_pid_eq (s : State) (P Q : Ref)
    (hpid : (s.heap P).pid = (s.heap Q).pid) (hQ1 : (s.heap Q).pid ≠ 1) :
    (terminateSpecificProcess s P).processes = (terminateSpecificProcess s Q).processes ∧
    (terminateSpecificProcess s P).orphanedProcesses
      = (terminateSpecificProcess s Q).orphanedProcesses ∧
    (terminateSpecificProcess s P).zombieProcesses
      = (terminateSpecificProcess s Q).zombieProcesses ∧
    (terminateSpecificProcess s P).pendingReaps
      = (terminateSpecificProcess s Q).pendingReaps := by
  have hP1 : (s.heap P).pid ≠ 1 := by rw [hpid]; exact hQ1
  rw [terminateSpecificProcess_of_ne s P hP1, terminateSpecificProcess_of_ne s Q hQ1]
  simp only [foldl_adoptChild_orphans, heapSet_status_pid]
  simp only [hpid, and_self]

/-- C13: when the selected process `S` has `S.pid ≠ 1` and a registry entry
`Q` has `Q.pid = S.ppid`, `Q.pid ≠ 1`, then `killParentProcess()` and
`terminateSpecificProcess(Q)` give the same registry list, orphan list, zombie
list and pending reaps; and when the pids of the registry are pairwise
distinct (so that `Q` is the only entry with that pid) they give the same
state altogether. -/
theorem C13_kill_parent_delegates (s : State) (S Q : Ref)
    (hsel : s.selectedProcess = some S) (hS : (s.heap S).pid ≠ 1)
    (hQ : Q ∈ s.processes) (hQpid : (s.heap Q).pid = (s.heap S).ppid)
    (hQ1 : (s.heap Q).pid ≠ 1) :
    (killParentProcess s).processes = (terminateSpecificProcess s Q).processes ∧
    (killParentProcess s).orphanedProcesses
      = (terminateSpecificProcess s Q).orphanedProcesses ∧
    (killParentProcess s).zombieProcesses
      = (terminateSpecificProcess s Q).zombieProcesses ∧
    (killParentProcess s).pendingReaps = (terminateSpecificProcess s Q).pendingReaps ∧
    ((s.procs.map Process.pid).Nodup →
      killParentProcess s = terminateSpecificProcess s Q) := by
  cases hfind : s.findByPid (s.heap S).ppid with
  | none =>
    exfalso
    unfold State.findByPid at hfind
    rw [List.find?_eq_none] at hfind
    exact hfind Q hQ (by simp [hQpid])
  | some parent =>
    obtain ⟨hpm, hpp⟩ := s.findByPid_mem _ _ hfind
    have hppQ : (s.heap parent).pid = (s.heap Q).pid := hpp.trans hQpid.symm
    have hp1 : (s.heap parent).pid ≠ 1 := by rw [hppQ]; exact hQ1
    have hkp : killParentProcess s = terminateSpecificProcess s parent := by
      unfold killParentProcess
      simp only [hsel, hS, if_false, hfind]
      simp [hp1]
    rw [hkp]
    obtain ⟨e1, e2, e3, e4⟩ := terminateSpecificProcess_lists_of_pid_eq s parent Q hppQ hQ1
    refine ⟨e1, e2, e3, e4, ?_⟩
    intro hnodup
    have hnd : (s.processes.map (fun r => (s.heap r).pid)).Nodup := by
      unfold State.procs at hnodup
      rw [List.map_map] at hnodup
      exact hnodup
    have hpQ : parent = Q := List.inj_on_of_nodup_map hnd hpm hQ hppQ
    rw [hpQ]

/-- C13 (witness): vim (pid 3) selected on the initial topology; its parent
bash is the entry at address 1. -/
theorem C13_kill_parent_delegates_witness :
    (killParentProcess (selectProcess initProcessTreeExplorer 3)).procs.map
        (fun p => (p.pid, p.ppid, p.status))
      = [(1, 0, Status.running), (2, 1, Status.zombie),
         (3, 1, Status.running), (4, 1, Status.running)] ∧
    killParentProcess (selectProcess initProcessTreeExplorer 3)
      = terminateSpecificProcess (selectProcess initProcessTreeExplorer 3) 1 :=
  ⟨by decide,
   (C13_kill_parent_delegates (selectProcess initProcessTreeExplorer 3) 2 1
     (by decide) (by decide) (by decide) (by decide) (by decide)).2.2.2.2 (by decide)⟩

/-- C14: a registry entry whose status is zombie still has status zombie after
any single operation (`forkProcess`, `execProcess`, `terminateProcess`,
`terminateSpecificProcess` on any process, `killParentProcess`, `reapZombie`
of any pid), whether the operation keeps it in the registry or removes it; no
operation makes it running again. -/
theorem C14_zombie_absorbing (s : State) (r : Ref) (choice : Fin 4) (P : Ref) (pid : Nat)
    (hr : r ∈ s.processes) (hz : (s.heap r).status = Status.zombie) :
    ((forkProcess s).heap r).status = Status.zombie ∧
    ((execProcess s choice).heap r).status = Status.zombie ∧
    ((terminateProcess s).heap r).status = Status.zombie ∧
    ((terminateSpecificProcess s P).heap r).status = Status.zombie ∧
    ((killParentProcess s).heap r).status = Status.zombie ∧
    ((reapZombie s pid).heap r).status = Status.zombie := by
  refine ⟨?_, ?_, ?_, terminateSpecificProcess_zombie_stays s P r hz, ?_, hz⟩
  · cases hsel : s.selectedProcess with
    | none => rw [forkProcess_none s hsel]; exact hz
    | some parent =>
      rw [forkProcess_some s parent hsel]
      have hh := State.pushNew_heap_of_mem { s with nextPid := s.nextPid + 1 }
        { pid := s.nextPid, ppid := (s.heap parent).pid,
          name := "child_" ++ (s.heap parent).name, status := Status.running,
          fds := (s.heap parent).fds, environment := (s.heap parent).environment,
          cwd := (s.heap parent).cwd, children := [] } r hr
      rw [hh]; exact hz
  · rw [execProcess_status]; exact hz
  · unfold terminateProcess
    cases s.selectedProcess with
    | none => exact hz
    | some sel =>
      simp only
      split
      · exact hz
      · exact terminateSpecificProcess_zombie_stays s sel r hz
  · unfold killParentProcess
    cases s.selectedProcess with
    | none => exact hz
    | some sel =>
      simp only
      split
      · exact hz
      · cases s.findByPid (s.heap sel).ppid with
        | none => exact hz
        | some parent =>
          simp only
          split
          · exact terminateSpecificProcess_zombie_stays s parent r hz
          · exact hz

/-- C14 (witness): the zombie bash (address 1) after it was terminated, with
`execProcess` drawing index 0 and `terminateSpecificProcess` called on it once
more. -/
theorem C14_zombie_absorbing_witness :
    ((run initProcessTreeExplorer [Op.select 2, Op.terminate]).heap 1).status
      = Status.zombie ∧
    (((forkProcess (run initProcessTreeExplorer [Op.select 2, Op.terminate])).heap 1).status
      = Status.zombie ∧
    ((execProcess (run initProcessTreeExplorer [Op.select 2, Op.terminate]) 0).heap 1).status
      = Status.zombie ∧
    ((terminateProcess (run initProcessTreeExplorer [Op.select 2, Op.terminate])).heap 1).status
      = Status.zombie ∧
    ((terminateSpecificProcess
        (run initProcessTreeExplorer [Op.select 2, Op.terminate]) 1).heap 1).status
      = Status.zombie ∧
    ((killParentProcess (run initProcessTreeExplorer [Op.select 2, Op.terminate])).heap 1).status
      = Status.zombie ∧
    ((reapZombie (run initProcessTreeExplorer [Op.select 2, Op.terminate]) 2).heap 1).status
      = Status.zombie) :=
  ⟨by decide,
   C14_zombie_absorbing (run initProcessTreeExplorer [Op.select 2, Op.terminate]) 1 0 1 2
     (by decide) (by decide)⟩

/-- C20: with no process selected, `forkProcess` returns the state unchanged:
registry, `nextPid` (no pid is consumed), orphan and zombie lists and
everything else. -/
theorem C20_fork_without_selection (s : State) (hsel : s.selectedProcess = none) :
    forkProcess s = s := by
  simp [forkProcess, hsel]

/-- C20 (witness): the initial topology, where nothing is selected. -/
theorem C20_fork_without_selection_witness :
    initProcessTreeExplorer.selectedProcess = none ∧
    forkProcess initProcessTreeExplorer = initProcessTreeExplorer :=
  ⟨by decide, C20_fork_without_selection initProcessTreeExplorer (by decide)⟩

/-- C15 (evaluation at the failing input): started on the initial topology,
`runAutoDemo` selects bash (pid 2) and then throws at `this.wait(1000)`,
before `forkProcess` is called: its promise is rejected, the registry still
holds the four initial processes, `nextPid` is still 5 and no process has
pid 5. -/
theorem C15_demo_throws_before_fork :
    (runAutoDemo initProcessTreeExplorer).rejected
      = some "TypeError: this.wait is not a function" ∧
    (runAutoDemo initProcessTreeExplorer).state.selectedProcess = some 1 ∧
    ((runAutoDemo initProcessTreeExplorer).state.heap 1).pid = 2 ∧
    ((runAutoDemo initProcessTreeExplorer).state.heap 1).name = "bash" ∧
    (runAutoDemo initProcessTreeExplorer).state.procs.map
        (fun p => (p.pid, p.ppid, p.name))
      = [(1, 0, "init"), (2, 1, "bash"), (3, 2, "vim"), (4, 2, "gcc")] ∧
    (runAutoDemo initProcessTreeExplorer).state.nextPid = 5 ∧
    (runAutoDemo initProcessTreeExplorer).state.findByPid 5 = none := by
  decide

/-- C16 (evaluation at the failing input): started on the initial topology,
`runAutoDemo` throws at `this.wait(1000)` and never reaches its kill-parent
step: when it ends every process is running, and the orphan list, the zombie
list and the pending reaps are empty. -/
theorem C16_demo_never_kills :
    (runAutoDemo initProcessTreeExplorer).rejected ≠ none ∧
    (runAutoDemo initProcessTreeExplorer).state.procs.map (fun p => (p.pid, p.status))
      = [(1, Status.running), (2, Status.running), (3, Status.running),
         (4, Status.running)] ∧
    (runAutoDemo initProcessTreeExplorer).state.orphanedProcesses = [] ∧
    (runAutoDemo initProcessTreeExplorer).state.zombieProcesses = [] ∧
    (runAutoDemo initProcessTreeExplorer).state.pendingReaps = [] := by
  decide

/-- C17: when no process is named bash, `runAutoDemo` ends in an error after
its select step and executes none of the remaining steps: the objects, the
registry, `nextPid`, the orphan and zombie lists, the pending reaps and the
view mode are what they were before the demo; only the selection is cleared. -/
theorem C17_demo_aborts (s : State)
    (hno : ∀ r ∈ s.processes, (s.heap r).name ≠ "bash") :
    (runAutoDemo s).rejected ≠ none ∧
    (runAutoDemo s).state = { s with selectedProcess := none } ∧
    (runAutoDemo s).state.processes = s.processes ∧
    (runAutoDemo s).state.procs = s.procs ∧
    (runAutoDemo s).state.nextPid = s.nextPid ∧
    (runAutoDemo s).state.orphanedProcesses = s.orphanedProcesses ∧
    (runAutoDemo s).state.zombieProcesses = s.zombieProcesses ∧
    (runAutoDemo s).state.pendingReaps = s.pendingReaps ∧
    (runAutoDemo s).state.viewMode = s.viewMode := by
  have hfind : s.findByName "bash" = none := by
    unfold State.findByName
    rw [List.find?_eq_none]
    intro r hr
    simpa using hno r hr
  have hstate : (runAutoDemo s).state = { s with selectedProcess := none } := by
    simp [runAutoDemo, thisWait, autoDemoSelect, hfind]
  have hrej : (runAutoDemo s).rejected ≠ none := by
    simp [runAutoDemo, thisWait]
  rw [hstate]
  exact ⟨hrej, rfl, rfl, rfl, rfl, rfl, rfl, rfl, rfl⟩

/-- C17 (witness): the state in which bash has been renamed python, with view
mode basic. -/
theorem C17_demo_aborts_witness :
    (∀ r ∈ noBashExample.processes, (noBashExample.heap r).name ≠ "bash") ∧
    noBashExample.viewMode = "basic" ∧
    (runAutoDemo noBashExample).state.viewMode = noBashExample.viewMode ∧
    (runAutoDemo noBashExample).state.procs = noBashExample.procs ∧
    (runAutoDemo noBashExample).state.nextPid = noBashExample.nextPid :=
  ⟨by decide, by decide,
   (C17_demo_aborts noBashExample (by decide)).2.2.2.2.2.2.2.2,
   (C17_demo_aborts noBashExample (by decide)).2.2.2.1,
   (C17_demo_aborts noBashExample (by decide)).2.2.2.2.1⟩

/-! ## The permission check -/

theorem parseIntAt_octal (d0 d1 d2 : Nat) (h0 : d0 < 8) (h1 : d1 < 8) (h2 : d2 < 8) :
    parseIntAt (String.mk [Nat.digitChar d0, Nat.digitChar d1, Nat.digitChar d2]) 0 = some d0 ∧
    parseIntAt (String.mk [Nat.digitChar d0, Nat.digitChar d1, Nat.digitChar d2]) 1 = some d1 ∧
    parseIntAt (String.mk [Nat.digitChar d0, Nat.digitChar d1, Nat.digitChar d2]) 2 = some d2 := by
  have key : ∀ d, d < 8 →
      (if (Nat.digitChar d).isDigit then some ((Nat.digitChar d).toNat - 48) else none)
        = some d := by
    intro d hd
    interval_cases d <;> decide
  refine ⟨?_, ?_, ?_⟩
  · simpa [parseIntAt] using key d0 h0
  · simpa [parseIntAt] using key d1 h1
  · simpa [parseIntAt] using key d2 h2

theorem bit_test_octal (d bit : Nat) (hd : d < 8) (hbit : bit = 4 ∨ bit = 2 ∨ bit = 1) :
    ((d &&& bit != 0) = true) ↔ d / bit % 2 = 1 := by
  rcases hbit with rfl | rfl | rfl <;> interval_cases d <;> decide

/-- C18: for a file whose permissions string is three octal digits
`d0 d1 d2`, a user other than root and an action read (bit 4), write (bit 2)
or execute (bit 1), `checkSpecificPermission(file, user, action).allowed` is
true exactly when that bit is set in the digit chosen as: `d0` if the user is
the file's owner, else `d1` if the user equals the file's group, else `d2`. -/
theorem C18_permission_decision (file : File) (user action : String) (d0 d1 d2 bit : Nat)
    (h0 : d0 < 8) (h1 : d1 < 8) (h2 : d2 < 8)
    (hperm : file.permissions
      = String.mk [Nat.digitChar d0, Nat.digitChar d1, Nat.digitChar d2])
    (huser : user ≠ "root")
    (hact : (action = "read" ∧ bit = 4) ∨ (action = "write" ∧ bit = 2)
      ∨ (action = "execute" ∧ bit = 1)) :
    (checkSpecificPermission file user action).allowed = true ↔
      (if user = file.owner then d0
        else if some user = file.group then d1 else d2) / bit % 2 = 1 := by
  obtain ⟨p0, p1, p2⟩ := parseIntAt_octal d0 d1 d2 h0 h1 h2
  have hreq : requiredBit action = some bit := by
    rcases hact with ⟨rfl, rfl⟩ | ⟨rfl, rfl⟩ | ⟨rfl, rfl⟩ <;> decide
  have hbit : bit = 4 ∨ bit = 2 ∨ bit = 1 := by
    rcases hact with ⟨_, h⟩ | ⟨_, h⟩ | ⟨_, h⟩ <;> simp [h]
  simp only [checkSpecificPermission, huser, if_false, hperm, p0, p1, p2, hreq, jsBitAnd,
    Option.getD_some]
  by_cases ho : user = file.owner
  · simp only [ho, if_true]
    exact bit_test_octal d0 bit h0 hbit
  · by_cases hg : some user = file.group
    · simp only [ho, hg, if_true, if_false]
      exact bit_test_octal d1 bit h1 hbit
    · simp only [ho, hg, if_false]
      exact bit_test_octal d2 bit h2 hbit

/-- C18 (witness): permissions 600 owned by alice. Bob, neither owner nor
group, is denied read (third digit 0); alice, the owner, is allowed read (first
digit 6). -/
theorem C18_permission_decision_witness :
    (checkSpecificPermission testFile "bob" "read").allowed = false ∧
    (checkSpecificPermission testFile "alice" "read").allowed = true ∧
    ((checkSpecificPermission testFile "bob" "read").allowed = true ↔
      (if "bob" = testFile.owner then 6
        else if some "bob" = testFile.group then 0 else 0) / 4 % 2 = 1) ∧
    ((checkSpecificPermission testFile "alice" "read").allowed = true ↔
      (if "alice" = testFile.owner then 6
        else if some "alice" = testFile.group then 0 else 0) / 4 % 2 = 1) :=
  ⟨by decide, by decide,
   C18_permission_decision testFile "bob" "read" 6 0 0 4 (by decide) (by decide) (by decide)
     (by decide) (by decide) (Or.inl ⟨rfl, rfl⟩),
   C18_permission_decision testFile "alice" "read" 6 0 0 4 (by decide) (by decide) (by decide)
     (by decide) (by decide) (Or.inl ⟨rfl, rfl⟩)⟩

/-- C19: for every file (any owner, group and permissions string) and every
action string, `checkSpecificPermission(file, 'root', action).allowed` is
true. -/
theorem C19_root_bypass (file : File) (action : String) :
    (checkSpecificPermission file "root" action).allowed = true := by
  simp [checkSpecificPermission]

/-! ## Frame properties of exec, terminate and fork; selection and counters -/

theorem execProcess_heap (s : State) (P : Ref) (choice : Fin 4)
    (hsel : s.selectedProcess = some P) (hne : (s.heap P).pid ≠ 1) (r : Ref) :
    (execProcess s choice).heap r
      = if r = P then
          { s.heap P with name := (programs.get ⟨choice.val, choice.isLt⟩).name,
                          fds := (programs.get ⟨choice.val, choice.isLt⟩).fds }
        else s.heap r := by
  simp only [execProcess, hsel, hne, if_false, heapSet]
  split <;> rfl

/-- C21 (counterexample): bash is selected and terminated, and while it is a
zombie awaiting its reclamation `execProcess` (drawing index 0) renames it
python and replaces its fds: the registry is not left unchanged. -/
theorem C21_exec_changes_zombie :
    (run initProcessTreeExplorer [Op.select 2, Op.terminate]).procs.map
        (fun p => (p.pid, p.name, p.fds, p.status))
      = [(1, "init", [0, 1, 2], Status.running), (2, "bash", [0, 1, 2, 3], Status.zombie),
         (3, "vim", [0, 1, 2, 4], Status.running),
         (4, "gcc", [0, 1, 2, 5, 6], Status.running)] ∧
    (run initProcessTreeExplorer [Op.select 2, Op.terminate]).selectedProcess = some 1 ∧
    (run initProcessTreeExplorer [Op.select 2, Op.terminate]).pendingReaps = [(2, 2000)] ∧
    (execProcess (run initProcessTreeExplorer [Op.select 2, Op.terminate]) 0).procs.map
        (fun p => (p.pid, p.name, p.fds, p.status))
      = [(1, "init", [0, 1, 2], Status.running), (2, "python", [0, 1, 2, 7], Status.zombie),
         (3, "vim", [0, 1, 2, 4], Status.running),
         (4, "gcc", [0, 1, 2, 5, 6], Status.running)] := by
  decide

/-- C21 (amended): `execProcess` looks at the pid of the selected process
only. When the selected process is the pid-1 root the state is unchanged;
otherwise, whatever its status (running or zombie), its name and fds become
those of the drawn program, its status and the registry list staying as they
were. -/
theorem C21_exec_whatever_status (s : State) (P : Ref) (choice : Fin 4)
    (hsel : s.selectedProcess = some P) :
    ((s.heap P).pid = 1 → execProcess s choice = s) ∧
    ((s.heap P).pid ≠ 1 →
      ((execProcess s choice).heap P).name = (programs.get ⟨choice.val, choice.isLt⟩).name ∧
      ((execProcess s choice).heap P).fds = (programs.get ⟨choice.val, choice.isLt⟩).fds ∧
      ((execProcess s choice).heap P).status = (s.heap P).status ∧
      (execProcess s choice).processes = s.processes) := by
  constructor
  · intro h1
    simp [execProcess, hsel, h1]
  · intro hne
    rw [execProcess_heap s P choice hsel hne P, if_pos rfl]
    exact ⟨rfl, rfl, rfl, (execProcess_rest s choice).1⟩

/-- C21 (witness): the zombie bash selected, the draw giving index 0
(python). -/
theorem C21_exec_whatever_status_witness :
    (run initProcessTreeExplorer [Op.select 2, Op.terminate]).selectedProcess = some 1 ∧
    ((run initProcessTreeExplorer [Op.select 2, Op.terminate]).heap 1).status
      = Status.zombie ∧
    ((execProcess (run initProcessTreeExplorer [Op.select 2, Op.terminate]) 0).heap 1).name
      = (programs.get ⟨(0 : Fin 4).val, (0 : Fin 4).isLt⟩).name ∧
    ((execProcess (run initProcessTreeExplorer [Op.select 2, Op.terminate]) 0).heap 1).fds
      = (programs.get ⟨(0 : Fin 4).val, (0 : Fin 4).isLt⟩).fds ∧
    ((execProcess (run initProcessTreeExplorer [Op.select 2, Op.terminate]) 0).heap 1).status
      = ((run initProcessTreeExplorer [Op.select 2, Op.terminate]).heap 1).status ∧
    (execProcess (run initProcessTreeExplorer [Op.select 2, Op.terminate]) 0).processes
      = (run initProcessTreeExplorer [Op.select 2, Op.terminate]).processes :=
  ⟨by decide, by decide,
   (C21_exec_whatever_status (run initProcessTreeExplorer [Op.select 2, Op.terminate]) 1 0
      (by decide)).2 (by decide)⟩

/-- C27: in every state reached from the initial topology by any sequence of
operations and reap timers, `selectedProcess` is either empty or one of the
objects held by `this.processes`; in particular its pid is the pid of a
registry entry. -/
theorem C27_selection_in_registry (ops : List Op) :
    (run initProcessTreeExplorer ops).selectedProcess = none ∨
    ∃ r, (run initProcessTreeExplorer ops).selectedProcess = some r ∧
      r ∈ (run initProcessTreeExplorer ops).processes ∧
      (run initProcessTreeExplorer ops).heap r ∈ (run initProcessTreeExplorer ops).procs ∧
      (run initProcessTreeExplorer ops).findByPid
        ((run initProcessTreeExplorer ops).heap r).pid ≠ none := by
  obtain ⟨_, hsel, _⟩ := Inv2.holds_initially.keeps_run ops
  cases h : (run initProcessTreeExplorer ops).selectedProcess with
  | none => exact Or.inl rfl
  | some r =>
    right
    have hr := hsel r h
    refine ⟨r, rfl, hr, List.mem_map.mpr ⟨r, hr, rfl⟩, ?_⟩
    unfold State.findByPid
    intro hnone
    rw [List.find?_eq_none] at hnone
    exact hnone r hr (by simp)

theorem terminateSpecificProcess_heap (s : State) (P : Ref) (hne : (s.heap P).pid ≠ 1)
    (r : Ref) :
    (terminateSpecificProcess s P).heap r
      = if r ∈ s.processes.filter (fun p => (s.heap p).ppid == (s.heap P).pid) then
          { heapSet s.heap P { s.heap P with status := Status.zombie } r with ppid := 1 }
        else heapSet s.heap P { s.heap P with status := Status.zombie } r := by
  rw [terminateSpecificProcess_of_ne s P hne]
  simp only [foldl_adoptChild_heap]

/-- C23: for a process `P` with `P.pid ≠ 1`, `terminateSpecificProcess(P)`
keeps the registry list (so the sequence of pids, `P` included), sets
`P.status` to zombie and keeps `P`'s pid, name, fds, environment and cwd, and
`P`'s ppid too unless `P` is its own parent; every other registry entry whose
ppid is `P.pid` only has its ppid set to 1; every other object is unchanged;
`nextPid` and `selectedProcess` are unchanged. -/
theorem C23_terminate_frame (s : State) (P : Ref) (hne : (s.heap P).pid ≠ 1) :
    (terminateSpecificProcess s P).processes = s.processes ∧
    (terminateSpecificProcess s P).procs.map Process.pid = s.procs.map Process.pid ∧
    ((terminateSpecificProcess s P).heap P).status = Status.zombie ∧
    ((terminateSpecificProcess s P).heap P).pid = (s.heap P).pid ∧
    ((terminateSpecificProcess s P).heap P).name = (s.heap P).name ∧
    ((terminateSpecificProcess s P).heap P).fds = (s.heap P).fds ∧
    ((terminateSpecificProcess s P).heap P).environment = (s.heap P).environment ∧
    ((terminateSpecificProcess s P).heap P).cwd = (s.heap P).cwd ∧
    ((s.heap P).ppid ≠ (s.heap P).pid →
      ((terminateSpecificProcess s P).heap P).ppid = (s.heap P).ppid) ∧
    (∀ c, c ≠ P → c ∈ s.processes → (s.heap c).ppid = (s.heap P).pid →
      (terminateSpecificProcess s P).heap c = { s.heap c with ppid := 1 }) ∧
    (∀ c, c ≠ P → (c ∉ s.processes ∨ (s.heap c).ppid ≠ (s.heap P).pid) →
      (terminateSpecificProcess s P).heap c = s.heap c) ∧
    (terminateSpecificProcess s P).nextPid = s.nextPid ∧
    (terminateSpecificProcess s P).selectedProcess = s.selectedProcess := by
  have hf := terminateSpecificProcess_frame s P
  have hheapP : (terminateSpecificProcess s P).heap P
      = if P ∈ s.processes.filter (fun p => (s.heap p).ppid == (s.heap P).pid) then
          { s.heap P with status := Status.zombie, ppid := 1 }
        else { s.heap P with status := Status.zombie } := by
    rw [terminateSpecificProcess_heap s P hne P, heapSet_same]
  refine ⟨hf.1, ?_, ?_, hf.2.2.1 P, ?_, ?_, ?_, ?_, ?_, ?_, ?_, hf.2.1, ?_⟩
  · unfold State.procs
    rw [hf.1, List.map_map, List.map_map]
    apply List.map_congr_left
    intro r _
    exact hf.2.2.1 r
  · rw [hheapP]; split <;> rfl
  · rw [hheapP]; split <;> rfl
  · rw [hheapP]; split <;> rfl
  · rw [hheapP]; split <;> rfl
  · rw [hheapP]; split <;> rfl
  · intro hself
    rw [hheapP]
    have hnot : P ∉ s.processes.filter (fun p => (s.heap p).ppid == (s.heap P).pid) := by
      intro hmem
      have := (List.mem_filter.mp hmem).2
      exact hself (by simpa using this)
    rw [if_neg hnot]
  · intro c hc hmem hpp
    rw [terminateSpecificProcess_heap s P hne c, heapSet_ne _ _ _ _ hc]
    have : c ∈ s.processes.filter (fun p => (s.heap p).ppid == (s.heap P).pid) := by
      rw [List.mem_filter]; exact ⟨hmem, by simp [hpp]⟩
    rw [if_pos this]
  · intro c hc hor
    rw [terminateSpecificProcess_heap s P hne c, heapSet_ne _ _ _ _ hc]
    have : c ∉ s.processes.filter (fun p => (s.heap p).ppid == (s.heap P).pid) := by
      rw [List.mem_filter]
      rintro ⟨hmem, hpp⟩
      rcases hor with h | h
      · exact h hmem
      · exact h (by simpa using hpp)
    rw [if_neg this]
  · rw [terminateSpecificProcess_of_ne s P hne]

/-- C23 (witness): terminating bash (address 1) on the initial topology, init
selected. Bash keeps its fields and becomes a zombie, vim and gcc get
`ppid = 1`, init is untouched. -/
theorem C23_terminate_frame_witness :
    ((selectProcess initProcessTreeExplorer 1).heap 1).pid ≠ 1 ∧
    (terminateSpecificProcess (selectProcess initProcessTreeExplorer 1) 1).procs.map
        (fun p => (p.pid, p.ppid, p.name, p.status))
      = [(1, 0, "init", Status.running), (2, 1, "bash", Status.zombie),
         (3, 1, "vim", Status.running), (4, 1, "gcc", Status.running)] ∧
    (terminateSpecificProcess (selectProcess initProcessTreeExplorer 1) 1).processes
      = (selectProcess initProcessTreeExplorer 1).processes :=
  ⟨by decide, by decide,
   (C23_terminate_frame (selectProcess initProcessTreeExplorer 1) 1 (by decide)).1⟩

/-- C24: with a process selected, `forkProcess` keeps every existing registry
entry as it was and in the same order, appends exactly one new object at the
end of the registry, and leaves `selectedProcess` (and the selected object),
`orphanedProcesses`, `zombieProcesses` and the pending reaps unchanged. -/
theorem C24_fork_frame (s : State) (parent : Ref)
    (hsel : s.selectedProcess = some parent) :
    (∃ x, x ∉ s.processes ∧ (forkProcess s).processes = s.processes ++ [x]) ∧
    (∀ r ∈ s.processes, (forkProcess s).heap r = s.heap r) ∧
    (∃ c, (forkProcess s).procs = s.procs ++ [c]) ∧
    (forkProcess s).selectedProcess = s.selectedProcess ∧
    (forkProcess s).heap parent = s.heap parent ∧
    (forkProcess s).orphanedProcesses = s.orphanedProcesses ∧
    (forkProcess s).zombieProcesses = s.zombieProcesses ∧
    (forkProcess s).pendingReaps = s.pendingReaps := by
  rw [forkProcess_some s parent hsel]
  refine ⟨⟨({ s with nextPid := s.nextPid + 1 } : State).freshRef, ?_, rfl⟩, ?_,
    ⟨_, State.pushNew_procs _ _⟩, rfl, ?_, rfl, rfl, rfl⟩
  · intro hmem
    exact Nat.lt_irrefl _ (State.lt_freshRef { s with nextPid := s.nextPid + 1 } _ hmem)
  · intro r hr
    exact State.pushNew_heap_of_mem { s with nextPid := s.nextPid + 1 } _ r hr
  · have hlt := State.selected_lt_freshRef { s with nextPid := s.nextPid + 1 } parent hsel
    simp only [State.pushNew]
    exact heapSet_ne _ _ _ _ (Nat.ne_of_lt hlt)

/-- C24 (witness): forking from bash on the initial topology. -/
theorem C24_fork_frame_witness :
    (selectProcess initProcessTreeExplorer 2).selectedProcess = some 1 ∧
    (forkProcess (selectProcess initProcessTreeExplorer 2)).procs.map
        (fun p => (p.pid, p.ppid, p.name))
      = [(1, 0, "init"), (2, 1, "bash"), (3, 2, "vim"), (4, 2, "gcc"),
         (5, 2, "child_bash")] ∧
    (forkProcess (selectProcess initProcessTreeExplorer 2)).selectedProcess
      = (selectProcess initProcessTreeExplorer 2).selectedProcess :=
  ⟨by decide, by decide,
   (C24_fork_frame (selectProcess initProcessTreeExplorer 2) 1 (by decide)).2.2.2.1⟩

/-- C25: with pending timers as a list of (pid, delay) pairs,
`terminateSpecificProcess(P)` with `P.pid ≠ 1` appends exactly one entry
`(P.pid, 2000)` and keeps all earlier entries in place; with `P.pid = 1` the
pending list is unchanged. -/
theorem C25_one_reap_per_termination (s : State) (P : Ref) :
    (terminateSpecificProcess s P).pendingReaps
      = if (s.heap P).pid = 1 then s.pendingReaps
        else s.pendingReaps ++ [((s.heap P).pid, 2000)] := by
  by_cases h : (s.heap P).pid = 1
  · simp [terminateSpecificProcess, h]
  · rw [terminateSpecificProcess_of_ne s P h, if_neg h]

/-! ## No process is its own parent -/

theorem execProcess_pid_ppid (s : State) (choice : Fin 4) (r : Ref) :
    ((execProcess s choice).heap r).pid = (s.heap r).pid ∧
    ((execProcess s choice).heap r).ppid = (s.heap r).ppid := by
  unfold execProcess
  cases s.selectedProcess with
  | none => exact ⟨rfl, rfl⟩
  | some sel =>
    simp only
    split
    · exact ⟨rfl, rfl⟩
    · simp only [heapSet]
      split
      · next e => subst e; exact ⟨rfl, rfl⟩
      · exact ⟨rfl, rfl⟩

theorem PpidInv.terminate_keeps_ppid {s : State} (hp : PpidInv s) (hi : Inv s) (P : Ref)
    (hP : P ∈ s.processes) : PpidInv (terminateSpecificProcess s P) := by
  by_cases h : (s.heap P).pid = 1
  · have : terminateSpecificProcess s P = s := by simp [terminateSpecificProcess, h]
    rw [this]; exact hp
  · intro r hr
    have hf := terminateSpecificProcess_frame s P
    rw [hf.1] at hr
    rw [hf.2.2.1 r, terminateSpecificProcess_heap s P h r]
    have hbase : (heapSet s.heap P { s.heap P with status := Status.zombie } r).ppid
        = (s.heap r).ppid := by
      simp only [heapSet]
      split
      · next e => subst e; rfl
      · rfl
    split
    · next hmem =>
      have hpp : (s.heap r).ppid = (s.heap P).pid := by
        simpa using (List.mem_filter.mp hmem).2
      have h1 := hp r hr
      have h2 := (hi.1 P hP).1
      show 1 < (s.heap r).pid
      omega
    · rw [hbase]; exact hp r hr

theorem PpidInv.step_keeps_ppid {s : State} (hp : PpidInv s) (hi : Inv2 s) (op : Op) :
    PpidInv (step s op) := by
  cases op with
  | select pid =>
    simp only [step, selectProcess]
    cases s.findByPid pid with
    | none => exact hp
    | some r => exact hp
  | fork =>
    simp only [step]
    cases hsel : s.selectedProcess with
    | none => rw [forkProcess_none s hsel]; exact hp
    | some parent =>
      rw [forkProcess_some s parent hsel]
      intro r hr
      have hr2 : r ∈ s.processes ++ [({ s with nextPid := s.nextPid + 1 } : State).freshRef] := hr
      rw [List.mem_append, List.mem_singleton] at hr2
      rcases hr2 with hr2 | hr2
      · rw [State.pushNew_heap_of_mem { s with nextPid := s.nextPid + 1 } _ r hr2]
        exact hp r hr2
      · rw [hr2]
        simp only [State.pushNew, heapSet_same]
        exact (hi.1.1 parent (hi.2.1 parent hsel)).2
  | exec choice =>
    intro r hr
    simp only [step] at hr ⊢
    rw [(execProcess_rest s choice).1] at hr
    rw [(execProcess_pid_ppid s choice r).1, (execProcess_pid_ppid s choice r).2]
    exact hp r hr
  | terminate =>
    simp only [step, terminateProcess]
    cases hsel : s.selectedProcess with
    | none => exact hp
    | some sel =>
      simp only
      split
      · exact hp
      · exact hp.terminate_keeps_ppid hi.1 sel (hi.2.1 sel hsel)
  | terminateBtn pid =>
    simp only [step, terminateButton]
    split
    · exact hp
    · cases hfind : s.findByPid pid with
      | none => exact hp
      | some r => exact hp.terminate_keeps_ppid hi.1 r (s.findByPid_mem _ _ hfind).1
  | killParent =>
    simp only [step, killParentProcess]
    cases hsel : s.selectedProcess with
    | none => exact hp
    | some sel =>
      simp only
      split
      · exact hp
      · cases hfind : s.findByPid (s.heap sel).ppid with
        | none => exact hp
        | some parent =>
          simp only
          split
          · exact hp.terminate_keeps_ppid hi.1 parent (s.findByPid_mem _ _ hfind).1
          · exact hp
  | reapTimer i =>
    simp only [step, fireReap]
    cases s.pendingReaps[i]? with
    | none => exact hp
    | some entry =>
      intro r hr
      exact hp r (List.mem_of_mem_filter hr)

theorem ppid_lt_pid_of_run (ops : List Op) : PpidInv (run initProcessTreeExplorer ops) := by
  have key : ∀ (l : List Op) (s : State), Inv2 s → PpidInv s → PpidInv (run s l) := by
    intro l
    induction l with
    | nil => intro s _ hp; exact hp
    | cons op rest ih =>
      intro s hi hp
      exact ih (step s op) (hi.keeps_step op) (hp.step_keeps_ppid hi op)
  apply key ops _ Inv2.holds_initially
  unfold PpidInv
  decide

/-! ## Terminating a zombie again -/

/-- C22 (evaluation at the failing input): bash is selected and terminated;
a second termination of the zombie before its reclamation, by
`terminateProcess()`, by its terminate button, or by `killParentProcess()`
from a child forked from it, appends its pid once more to `zombieProcesses`
and schedules a second reap for pid 2. -/
theorem C22_zombie_terminated_twice :
    (run initProcessTreeExplorer [Op.select 2, Op.terminate]).selectedProcess = some 1 ∧
    ((run initProcessTreeExplorer [Op.select 2, Op.terminate]).heap 1).status
      = Status.zombie ∧
    (run initProcessTreeExplorer [Op.select 2, Op.terminate]).zombieProcesses = [2] ∧
    (run initProcessTreeExplorer [Op.select 2, Op.terminate]).pendingReaps = [(2, 2000)] ∧
    (terminateProcess (run initProcessTreeExplorer [Op.select 2, Op.terminate])).zombieProcesses
      = [2, 2] ∧
    (terminateProcess (run initProcessTreeExplorer [Op.select 2, Op.terminate])).pendingReaps
      = [(2, 2000), (2, 2000)] ∧
    (terminateButton (run initProcessTreeExplorer [Op.select 2, Op.terminate]) 2).zombieProcesses
      = [2, 2] ∧
    (terminateButton (run initProcessTreeExplorer [Op.select 2, Op.terminate]) 2).pendingReaps
      = [(2, 2000), (2, 2000)] ∧
    (run initProcessTreeExplorer
        [Op.select 2, Op.terminate, Op.fork, Op.select 5, Op.killParent]).zombieProcesses
      = [2, 2] ∧
    (run initProcessTreeExplorer
        [Op.select 2, Op.terminate, Op.fork, Op.select 5, Op.killParent]).orphanedProcesses
      = [3, 4, 5] ∧
    (run initProcessTreeExplorer
        [Op.select 2, Op.terminate, Op.fork, Op.select 5, Op.killParent]).pendingReaps
      = [(2, 2000), (2, 2000)] := by
  decide

/-- C28 (evaluation at the failing input): bash is selected and terminated
twice before its reclamation. `zombieProcesses` is `[2, 2]`, so the counter
shows 2, while one registry entry has status zombie. -/
theorem C28_zombie_counter_overcounts :
    (run initProcessTreeExplorer [Op.select 2, Op.terminate, Op.terminate]).procs.map
        (fun p => (p.pid, p.status))
      = [(1, Status.running), (2, Status.zombie), (3, Status.running),
         (4, Status.running)] ∧
    (run initProcessTreeExplorer [Op.select 2, Op.terminate, Op.terminate]).zombieProcesses
      = [2, 2] ∧
    (run initProcessTreeExplorer
        [Op.select 2, Op.terminate, Op.terminate]).zombieProcesses.length = 2 ∧
    ((run initProcessTreeExplorer [Op.select 2, Op.terminate, Op.terminate]).procs.filter
        (fun p => p.status == Status.zombie)).length = 1 := by
  decide

/-- C29: for every file (whatever its permissions string, three octal digits
in particular), every user `u` other than root and every action string,
`checkPermission(file, u, u, action).allowed` equals
`checkSpecificPermission(file, u, action).allowed`. -/
theorem C29_checkers_agree (file : File) (u action : String) (hu : u ≠ "root") :
    (checkPermission file u u action).allowed
      = (checkSpecificPermission file u action).allowed := by
  simp only [checkPermission, checkSpecificPermission, hu, if_false]
  by_cases ho : u = file.owner
  · simp only [ho, if_true]
  · by_cases hg : some u = file.group
    · simp only [ho, hg, if_true, if_false]
    · simp only [ho, hg, if_false]

/-- C29 (witness): bob writing to `public.txt` (644, owned by alice): both
checkers deny. -/
theorem C29_checkers_agree_witness :
    (checkPermission publicFile "bob" "bob" "write").allowed = false ∧
    (checkSpecificPermission publicFile "bob" "read").allowed = true ∧
    (checkPermission publicFile "bob" "bob" "write").allowed
      = (checkSpecificPermission publicFile "bob" "write").allowed :=
  ⟨by decide, by decide, C29_checkers_agree publicFile "bob" "write" (by decide)⟩

/-! ## The Virtual Memory Mapper -/

/-- C26 (evaluation at the failing input): sixteen `allocateFrame` calls for
pages 0 to 15 fill frames 0 to 15 in that order, frame 0 first. With every
frame used, the next `allocateFrame(16)` returns and overwrites whatever index
the random draw gives (8 for the draw 8, 3 for the draw 3), and leaves the
earliest allocated frame 0 holding page 0: the victim is the random index,
not the first frame in. -/
theorem C26_eviction_is_random :
    (allocateAll initVirtualMemoryMapper.physicalFrames [(0, 0)]).map (fun f => f.page)
      = some 0 :: List.replicate 15 none ∧
    (allocateAll initVirtualMemoryMapper.physicalFrames fillCalls)
      = (List.range 16).map (fun p => { used := true, page := some p }) ∧
    (∀ v : Fin 16,
      (allocateFrame (allocateAll initVirtualMemoryMapper.physicalFrames fillCalls) 16 v).2
        = v.val) ∧
    (allocateFrame (allocateAll initVirtualMemoryMapper.physicalFrames fillCalls) 16 8).2
      = 8 ∧
    ((allocateFrame (allocateAll initVirtualMemoryMapper.physicalFrames fillCalls) 16 8).1).map
        (fun f => f.page)
      = [some 0, some 1, some 2, some 3, some 4, some 5, some 6, some 7, some 16, some 9,
         some 10, some 11, some 12, some 13, some 14, some 15] ∧
    (allocateFrame (allocateAll initVirtualMemoryMapper.physicalFrames fillCalls) 16 3).2
      = 3 := by
  decide

/-- C30 (evaluation at the failing input): translating the addresses of pages
0 to 15 and then of page 16, the random draw being 5, evicts frame 5 without
touching the page-table entry of page 5. The page table then maps both page 5
and page 16 to frame 5, while frame 5 holds page 16: the entry of page 5 no
longer agrees with the frame table. -/
theorem C30_stale_entry_after_eviction :
    (translateAll initVirtualMemoryMapper seventeenPages).pageTableEntries.map
        (fun e => (e.1, e.2.frame, e.2.present))
      = [(0, 0, true), (1, 1, true), (2, 2, true), (3, 3, true), (4, 4, true),
         (5, 5, true), (6, 6, true), (7, 7, true), (8, 8, true), (9, 9, true),
         (10, 10, true), (11, 11, true), (12, 12, true), (13, 13, true), (14, 14, true),
         (15, 15, true), (16, 5, true)] ∧
    (translateAll initVirtualMemoryMapper seventeenPages).physicalFrames[5]?
      = some { used := true, page := some 16 } ∧
    (translateAll initVirtualMemoryMapper seventeenPages).lookup 5
      = some { frame := 5, present := true } ∧
    (translateAll initVirtualMemoryMapper seventeenPages).lookup 16
      = some { frame := 5, present := true } ∧
    ¬ PageTableConsistent (translateAll initVirtualMemoryMapper seventeenPages) := by
  refine ⟨by decide, by decide, by decide, by decide, ?_⟩
  unfold PageTableConsistent
  decide

end CSO2
